import Mathlib

/-!
Verification of the dynamic-form runtime of the `pro-dvizhenie-bot` backend.

The development shallowly embeds the Python modules
`backend/apps/applications/services/form_runtime.py` (JSON-logic expression
evaluator, question visibility, step navigation, answer validation, document
requirement checking) and
`backend/apps/applications/services/application_service.py` (`change_status`)
together with the configuration table
`backend/config/constants.py:APPLICATION_STATUS_ALLOWED_TRANSITIONS`.

JSON values are modelled by the mutual inductive `Val`/`ValList`/`ValDict`.
Python `float` is modelled as `Rat` (exact arithmetic; NaN/inf excluded from
the model domain).  Python dictionaries are association lists with unique
keys.  The evaluator `eval_expr` is partial in Python (unknown operators make
`eval_expr` and `_resolve_operand` call each other forever until CPython's
`RecursionError`); the embedding makes this explicit with a fuel argument,
fuel exhaustion playing the role of `RecursionError`.  Exceptions
(`TypeError` from `>`-style comparisons on incomparable values, `IndexError`
from missing comparison operands) are modelled with `Except`.
-/

namespace ProDvizhenie

/- A JSON value as manipulated by the Python runtime.  `vfloat` models a
Python float by an exact rational; `vdict` is an insertion-ordered mapping
with unique keys, as Python dictionaries are. -/
mutual

inductive Val : Type where
  | vnull : Val
  | vbool (b : Bool) : Val
  | vint (n : Int) : Val
  | vfloat (q : Rat) : Val
  | vstr (s : String) : Val
  | vlist (xs : ValList) : Val
  | vdict (xs : ValDict) : Val
  deriving DecidableEq

inductive ValList : Type where
  | nil : ValList
  | cons (hd : Val) (tl : ValList) : ValList
  deriving DecidableEq

inductive ValDict : Type where
  | dnil : ValDict
  | dcons (key : String) (val : Val) (tl : ValDict) : ValDict
  deriving DecidableEq

end

/-- Converts the embedded list representation into an ordinary `List`. -/
def ValList.toList : ValList → List Val
  | .nil => []
  | .cons hd tl => hd :: tl.toList

/-- Builds the embedded list representation from an ordinary `List`. -/
def ValList.ofList : List Val → ValList
  | [] => .nil
  | v :: vs => .cons v (ValList.ofList vs)

/-- The keys of an embedded dictionary, in insertion order. -/
def ValDict.keyList : ValDict → List String
  | .dnil => []
  | .dcons k _ tl => k :: tl.keyList

/-- Python `key in d`. -/
def ValDict.hasKey (d : ValDict) (k : String) : Bool :=
  d.keyList.contains k

/-- First value stored under `k`, i.e. Python `d[k]` when the key exists. -/
def ValDict.find (d : ValDict) (k : String) : Option Val :=
  match d with
  | .dnil => none
  | .dcons k' v tl => if k' = k then some v else tl.find k

/-- Python `d[k]` for a key known to be present (`vnull` otherwise; the
callers below only use it after a `hasKey` test, matching the source). -/
def ValDict.findD (d : ValDict) (k : String) : Val :=
  (d.find k).getD .vnull

/-- Number of entries, Python `len(d)`. -/
def ValDict.size : ValDict → Nat
  | .dnil => 0
  | .dcons _ _ tl => tl.size + 1

/-- An answer map / evaluation context: Python `Dict[str, Any]` with string
keys (the answer dictionaries built by `build_answer_dict`). -/
abbrev Ctx : Type := List (String × Val)

/-- Python `ctx.get(k)` for a string key `k` (`None` when missing). -/
def ctxFind : Ctx → String → Option Val
  | [], _ => none
  | (k, v) :: tl, key => if k = key then some v else ctxFind tl key

/-- Exceptional outcomes of the evaluator.  `recursionLimit` models CPython's
`RecursionError` for the unbounded `eval_expr`/`_resolve_operand` mutual
recursion on malformed expressions. -/
inductive PyErr : Type where
  | typeError : PyErr
  | indexError : PyErr
  | recursionLimit : PyErr
  deriving DecidableEq

/-- Python truthiness `bool(v)` on JSON values. -/
def pyTruthy : Val → Bool
  | .vnull => false
  | .vbool b => b
  | .vint n => n ≠ 0
  | .vfloat q => q ≠ 0
  | .vstr s => s ≠ ""
  | .vlist .nil => false
  | .vlist (.cons _ _) => true
  | .vdict .dnil => false
  | .vdict (.dcons _ _ _) => true

/-- Numeric view used by Python `==` and ordering: `bool` counts as an
integer and `int`/`float` compare exactly. -/
def Val.toNum : Val → Option Rat
  | .vbool b => some (if b then 1 else 0)
  | .vint n => some (n : Rat)
  | .vfloat q => some q
  | _ => none

/- Python `==` on JSON values.  Numbers (including booleans) compare
numerically across representations; other types compare structurally and
mixed types are unequal.  Dictionary values are compared entrywise in
insertion order (Python is insertion-order-insensitive here; no claim
compares dictionary values). -/
mutual

def pyEq : Val → Val → Bool
  | .vnull, .vnull => true
  | .vstr s, .vstr t => s = t
  | .vlist xs, .vlist ys => pyEqList xs ys
  | .vdict xs, .vdict ys => pyEqDict xs ys
  | a, b =>
    match a.toNum, b.toNum with
    | some x, some y => x = y
    | _, _ => false

def pyEqList : ValList → ValList → Bool
  | .nil, .nil => true
  | .cons a as, .cons b bs => pyEq a b && pyEqList as bs
  | _, _ => false

def pyEqDict : ValDict → ValDict → Bool
  | .dnil, .dnil => true
  | .dcons k a as, .dcons k' b bs => k = k' && pyEq a b && pyEqDict as bs
  | _, _ => false

end

/- Python ordering comparison.  `none` models a `TypeError` between
incomparable values.  Lists compare lexicographically, first testing `==` on
heads exactly as CPython's sequence comparison does. -/
mutual

def cmpVal : Val → Val → Option Ordering
  | .vstr s, .vstr t => some (compare s t)
  | .vlist xs, .vlist ys => cmpList xs ys
  | a, b =>
    match a.toNum, b.toNum with
    | some x, some y => some (compare x y)
    | _, _ => none

def cmpList : ValList → ValList → Option Ordering
  | .nil, .nil => some .eq
  | .nil, .cons _ _ => some .lt
  | .cons _ _, .nil => some .gt
  | .cons a as, .cons b bs =>
    if pyEq a b then cmpList as bs else cmpVal a b

end

/-- Whether `xs` occurs as a contiguous run at the front of `ys`. -/
def listStarts : List Char → List Char → Bool
  | [], _ => true
  | _ :: _, [] => false
  | a :: as, b :: bs => a = b && listStarts as bs

/-- Whether `xs` occurs as a contiguous run anywhere in `ys` (Python
substring containment). -/
def listSub (xs ys : List Char) : Bool :=
  (List.range (ys.length + 1)).any fun i => listStarts xs (ys.drop i)

/-- Python `a in r`.  The source wraps `in`/`contains` in
`try ... except TypeError: return False`, so this is total: non-container
right operands and unhashable left operands for dictionaries yield `false`.
Dictionary membership tests the keys (all strings here). -/
def pyIn (a r : Val) : Bool :=
  match r with
  | .vlist ys => ys.toList.any (pyEq a)
  | .vstr s =>
    match a with
    | .vstr t => listSub t.data s.data
    | _ => false
  | .vdict d =>
    match a with
    | .vstr t => d.keyList.contains t
    | _ => false
  | _ => false

/-- Python iteration `for item in v` as used by the `all`/`any`/`and`/`or`
branches: lists yield elements, strings yield one-character strings,
dictionaries yield their keys, anything else raises `TypeError`. -/
def pyIter : Val → Except PyErr (List Val)
  | .vlist xs => .ok xs.toList
  | .vstr s => .ok (s.data.map fun c => .vstr (String.mk [c]))
  | .vdict d => .ok (d.keyList.map .vstr)
  | _ => .error .typeError

/-- Operand list of a comparison node: the source wraps the payload in a
list unless it is already a non-string iterable, then iterates it
(dictionaries iterate over their keys). -/
def wrapCmpOperands : Val → List Val
  | .vlist xs => xs.toList
  | .vdict d => d.keyList.map .vstr
  | v => [v]

/-- Operand list of a `not` node: the source only wraps non-lists. -/
def wrapNotOperands : Val → List Val
  | .vlist xs => xs.toList
  | v => [v]

/-- Python `ctx.get(key)` where `key` is an arbitrary JSON value: unhashable
keys raise `TypeError`; hashable non-string keys find nothing in a
string-keyed dictionary. -/
def ctxGetVal (ctx : Ctx) (key : Val) : Except PyErr Val :=
  match key with
  | .vstr s => .ok ((ctxFind ctx s).getD .vnull)
  | .vlist _ => .error .typeError
  | .vdict _ => .error .typeError
  | _ => .ok .vnull

/-- Python `l[i]`, raising `IndexError` past the end. -/
def listGetE (l : List Val) (i : Nat) : Except PyErr Val :=
  match l.get? i with
  | some v => .ok v
  | none => .error .indexError

/-- Model of `str.lower` restricted to ASCII (all operator tokens of the
evaluator are ASCII). -/
def lowChar (c : Char) : Char :=
  if 'A' ≤ c ∧ c ≤ 'Z' then Char.ofNat (c.toNat + 32) else c

/-- Lowercases a string (ASCII model of Python `str.lower()`). -/
def strLower (s : String) : String :=
  String.mk (s.data.map lowChar)

/-- Python `value.startswith("$")` view: the remainder after a leading
dollar sign, when there is one. -/
def dollarView : List Char → Option (List Char)
  | [] => none
  | c :: rest => if c = '$' then some rest else none

/-- The comparison-operator dispatch table of `eval_expr` (the source's
`if op in {"==", "eq"}: ...` chain after `op = op.lower()`); `none` stands
for an unrecognised operator, which the source lets fall through to the
final `bool(_resolve_operand(expr, ctx))` line. -/
def cmpDispatch (opl : String) (resolved : List Val) : Option (Except PyErr Bool) :=
  if opl = "==" ∨ opl = "eq" then some (do
    let a ← listGetE resolved 0
    let b ← listGetE resolved 1
    pure (pyEq a b))
  else if opl = "!=" ∨ opl = "neq" then some (do
    let a ← listGetE resolved 0
    let b ← listGetE resolved 1
    pure (!pyEq a b))
  else if opl = "in" then some (do
    let a ← listGetE resolved 0
    let b ← listGetE resolved 1
    pure (pyIn a b))
  else if opl = ">" ∨ opl = "gt" then some (do
    let a ← listGetE resolved 0
    let b ← listGetE resolved 1
    match cmpVal a b with
    | some o => pure (o = .gt)
    | none => .error .typeError)
  else if opl = ">=" ∨ opl = "gte" then some (do
    let a ← listGetE resolved 0
    let b ← listGetE resolved 1
    match cmpVal a b with
    | some o => pure (o = .gt ∨ o = .eq)
    | none => .error .typeError)
  else if opl = "<" ∨ opl = "lt" then some (do
    let a ← listGetE resolved 0
    let b ← listGetE resolved 1
    match cmpVal a b with
    | some o => pure (o = .lt)
    | none => .error .typeError)
  else if opl = "<=" ∨ opl = "lte" then some (do
    let a ← listGetE resolved 0
    let b ← listGetE resolved 1
    match cmpVal a b with
    | some o => pure (o = .lt ∨ o = .eq)
    | none => .error .typeError)
  else if opl = "contains" then some (do
    let a ← listGetE resolved 0
    let b ← listGetE resolved 1
    pure (pyIn b a))
  else none

mutual

/-- Embedding of `form_runtime._resolve_operand`: `{var: name}` becomes a
context lookup, other dictionaries are evaluated as sub-expressions, lists
resolve elementwise, strings starting with `"$"` look up the remainder in
the context, and everything else is a literal. -/
def resolve_operand : Nat → Val → Ctx → Except PyErr Val
  | 0, _, _ => .error .recursionLimit
  | fuel + 1, v, ctx =>
    match v with
    | .vdict (.dcons k val .dnil) =>
      if k = "var" then ctxGetVal ctx val
      else do
        let b ← eval_expr fuel (.vdict (.dcons k val .dnil)) ctx
        pure (.vbool b)
    | .vdict d => do
      let b ← eval_expr fuel (.vdict d) ctx
      pure (.vbool b)
    | .vlist xs => do
      let rs ← resolve_list fuel xs.toList ctx
      pure (.vlist (ValList.ofList rs))
    | .vstr s =>
      match dollarView s.data with
      | some rest => .ok ((ctxFind ctx (String.mk rest)).getD .vnull)
      | none => .ok (.vstr s)
    | v => .ok v

/-- Elementwise `_resolve_operand` over a Python list. -/
def resolve_list : Nat → List Val → Ctx → Except PyErr (List Val)
  | 0, _, _ => .error .recursionLimit
  | _ + 1, [], _ => .ok []
  | fuel + 1, v :: vs, ctx => do
    let r ← resolve_operand fuel v ctx
    let rs ← resolve_list fuel vs ctx
    pure (r :: rs)

/-- Embedding of `form_runtime.eval_expr`, the JSON-logic style boolean
evaluator, preserving the source's dispatch order (`all`, `any`, `and`,
`or`, `not`, single-key `var`, single-key comparison, and the final
`bool(_resolve_operand(expr, ctx))` fallthrough that recurses forever on
unrecognised single-key operators). -/
def eval_expr : Nat → Val → Ctx → Except PyErr Bool
  | 0, _, _ => .error .recursionLimit
  | fuel + 1, e, ctx =>
    match e with
    | .vnull => .ok true
    | .vbool b => .ok b
    | .vdict d =>
      if d.hasKey "all" then do
        let items ← pyIter (d.findD "all")
        eval_all fuel items ctx
      else if d.hasKey "any" then do
        let items ← pyIter (d.findD "any")
        eval_any fuel items ctx
      else if d.hasKey "and" then do
        let items ← pyIter (d.findD "and")
        eval_all fuel items ctx
      else if d.hasKey "or" then do
        let items ← pyIter (d.findD "or")
        eval_any fuel items ctx
      else if d.hasKey "not" then do
        let b ← eval_any fuel (wrapNotOperands (d.findD "not")) ctx
        pure (!b)
      else if d.hasKey "var" && d.size = 1 then do
        let v ← ctxGetVal ctx (d.findD "var")
        pure (pyTruthy v)
      else
        match d with
        | .dcons op operands .dnil => do
          let resolved ← resolve_list fuel (wrapCmpOperands operands) ctx
          match cmpDispatch (strLower op) resolved with
          | some r => r
          | none => do
            let r ← resolve_operand fuel (.vdict (.dcons op operands .dnil)) ctx
            pure (pyTruthy r)
        | d => do
          let r ← resolve_operand fuel (.vdict d) ctx
          pure (pyTruthy r)
    | .vlist xs => eval_all fuel xs.toList ctx
    | v => do
      let r ← resolve_operand fuel v ctx
      pure (pyTruthy r)

/-- Short-circuiting Python `all(eval_expr(item, ctx) for item in items)`. -/
def eval_all : Nat → List Val → Ctx → Except PyErr Bool
  | 0, _, _ => .error .recursionLimit
  | _ + 1, [], _ => .ok true
  | fuel + 1, e :: es, ctx => do
    let b ← eval_expr fuel e ctx
    if b then eval_all fuel es ctx else pure false

/-- Short-circuiting Python `any(eval_expr(item, ctx) for item in items)`. -/
def eval_any : Nat → List Val → Ctx → Except PyErr Bool
  | 0, _, _ => .error .recursionLimit
  | _ + 1, [], _ => .ok false
  | fuel + 1, e :: es, ctx => do
    let b ← eval_expr fuel e ctx
    if b then pure true else eval_any fuel es ctx

end

/-- Whitespace predicate for Python `str.strip()` (ASCII model). -/
def wsChar (c : Char) : Bool :=
  c = ' ' ∨ c = '\t' ∨ c = '\n' ∨ c = '\r' ∨ c = '\x0b' ∨ c = '\x0c'

/-- Removes leading whitespace. -/
def ltrimChars (l : List Char) : List Char :=
  l.dropWhile wsChar

/-- Removes trailing whitespace. -/
def rtrimChars (l : List Char) : List Char :=
  (l.reverse.dropWhile wsChar).reverse

/-- Python `s.strip()`. -/
def pyStrip (s : String) : String :=
  String.mk (rtrimChars (ltrimChars s.data))

/-- Splits a character list on a separator; `n` separators yield `n + 1`
groups (Python `str.split(sep)`). -/
def splitOnC (sep : Char) : List Char → List (List Char)
  | [] => [[]]
  | c :: cs =>
    if c = sep then [] :: splitOnC sep cs
    else
      match splitOnC sep cs with
      | [] => [[c]]
      | g :: gs => (c :: g) :: gs

/-- Model of the `EMAIL_RE` pattern `^[^@\s]+@[^@\s]+\.[^@\s]+$`: exactly one
`@`, a nonempty whitespace-free local part, and a whitespace-free domain
containing a dot that is neither its first nor its last character. -/
def emailOk (s : String) : Bool :=
  match splitOnC '@' s.data with
  | [local_, domain] =>
    (!local_.isEmpty) && local_.all (fun c => !wsChar c) &&
      domain.all (fun c => !wsChar c) &&
      (List.range domain.length).any fun i =>
        decide (0 < i) && decide (i + 1 < domain.length) &&
          decide ((domain.drop i).take 1 = ['.'])
  | _ => false

/-- ASCII digit test, the model of `\d` in the patterns of this module. -/
def isDigitC (c : Char) : Bool :=
  decide (48 ≤ c.toNat ∧ c.toNat ≤ 57)

/-- Model of the `PHONE_RE` pattern `^\+7\d{10}$`.  (Python's `$` would also
tolerate one trailing newline; no claim exercises that corner.) -/
def phoneOk (s : String) : Bool :=
  match s.data with
  | '+' :: '7' :: rest => decide (rest.length = 10) && rest.all isDigitC
  | _ => false

/-- A calendar date as produced by `datetime.strptime(_, "%Y-%m-%d").date()`. -/
structure PyDate : Type where
  year : Nat
  month : Nat
  day : Nat
  deriving DecidableEq

/-- Gregorian leap-year test, as in `datetime`. -/
def isLeap (y : Nat) : Bool :=
  (y % 4 = 0 && y % 100 ≠ 0) || y % 400 = 0

/-- Days in a month of the proleptic Gregorian calendar. -/
def daysInMonth (y m : Nat) : Nat :=
  if m = 2 then (if isLeap y then 29 else 28)
  else if m = 4 ∨ m = 6 ∨ m = 9 ∨ m = 11 then 30
  else 31

/-- Numeric value of an ASCII digit character. -/
def digitVal (c : Char) : Nat := c.toNat - 48

/-- ASCII digit character of `n < 10`. -/
def digitChar (n : Nat) : Char := Char.ofNat (48 + n)

/-- Value of a one- or two-digit group, as matched by the CPython `strptime`
patterns for `%m` (`1[0-2]|0[1-9]|[1-9]`) and `%d` (value bounds are checked
separately by the caller). -/
def twoDigitVal : List Char → Option Nat
  | [a] => if isDigitC a then some (digitVal a) else none
  | [a, b] => if isDigitC a && isDigitC b then some (10 * digitVal a + digitVal b) else none
  | _ => none

/-- Value of the exactly-four-digit year group matched by `%Y`
(`\d\d\d\d` in CPython's `_strptime`). -/
def fourDigitVal : List Char → Option Nat
  | [a, b, c, d] =>
    if isDigitC a && isDigitC b && isDigitC c && isDigitC d then
      some (1000 * digitVal a + 100 * digitVal b + 10 * digitVal c + digitVal d)
    else none
  | _ => none

/-- Model of `datetime.strptime(s, "%Y-%m-%d").date()`: three dash-separated
groups, a four-digit year of at least 1 (`datetime.MINYEAR`), a one- or
two-digit month in 1..12 and a day valid for that month; anything else is a
`ValueError`, modelled as `none`. -/
def parse_date (s : String) : Option PyDate :=
  match splitOnC '-' s.data with
  | [ys, ms, ds] =>
    match fourDigitVal ys, twoDigitVal ms, twoDigitVal ds with
    | some y, some m, some d =>
      if 1 ≤ y ∧ 1 ≤ m ∧ m ≤ 12 ∧ 1 ≤ d ∧ d ≤ daysInMonth y m then
        some ⟨y, m, d⟩
      else none
    | _, _, _ => none
  | _ => none

/-- Two-digit zero-padded decimal rendering. -/
def pad2 (n : Nat) : List Char := [digitChar (n / 10), digitChar (n % 10)]

/-- Four-digit zero-padded decimal rendering. -/
def pad4 (n : Nat) : List Char :=
  [digitChar (n / 1000), digitChar (n / 100 % 10), digitChar (n / 10 % 10), digitChar (n % 10)]

/-- Python `date.isoformat()`: `YYYY-MM-DD`. -/
def isoformat (d : PyDate) : String :=
  String.mk (pad4 d.year ++ '-' :: (pad2 d.month ++ '-' :: pad2 d.day))

/-- Strict `<` on dates (lexicographic on year, month, day). -/
def pyDateLt (a b : PyDate) : Bool :=
  a.year < b.year ∨ (a.year = b.year ∧
    (a.month < b.month ∨ (a.month = b.month ∧ a.day < b.day)))

/-- Decimal value of a nonempty all-digit group. -/
def digitsVal (l : List Char) : Nat :=
  l.foldl (fun acc c => 10 * acc + digitVal c) 0

/-- Model of CPython `float(s)` on plain decimal notation: optional
surrounding whitespace, optional sign, digits with an optional decimal
point, at least one digit.  (Scientific notation, underscores and the
`nan`/`inf` spellings are outside the model domain; no claim depends on
them.) -/
def parseFloat (s : String) : Option Rat :=
  let l := rtrimChars (ltrimChars s.data)
  let signed : Bool × List Char :=
    match l with
    | '-' :: rest => (true, rest)
    | '+' :: rest => (false, rest)
    | rest => (false, rest)
  let body := signed.2
  let mag : Option Rat :=
    match splitOnC '.' body with
    | [a] => if !a.isEmpty && a.all isDigitC then some (digitsVal a : Rat) else none
    | [a, b] =>
      if (!a.isEmpty ∨ !b.isEmpty) && a.all isDigitC && b.all isDigitC then
        some ((digitsVal a : Rat) + (digitsVal b : Rat) / ((10 : Rat) ^ b.length))
      else none
    | _ => none
  mag.map fun q => if signed.1 then -q else q

/-- Modelled from the spec: the full question-type enumeration of §4.4
(text/textarea, email, phone, date, boolean/yes-no, single-select,
multi-select, number, file/file-multi).  `validate_answer_value`, the
Telegram scenario and the test-suite all reference members such as
`Question.QType.TEXTAREA`, `EMAIL`, `PHONE`, `BOOLEAN`, `SELECT`,
`MULTISELECT` and `FILE_MULTI`, but the `QType` declaration in
`apps/applications/models.py` under `src/` lists only seven of the fourteen
members, so the enumeration is completed here from the spec's table. -/
inductive QType : Type where
  | text | textarea | email | phone | date | boolean | yes_no
  | select | select_one | multiselect | select_many
  | number | file | file_multi
  deriving DecidableEq

/-- Projection of the `Question` model row: primary key, code, type,
required flag, the `payload["order"]` hint, the
`payload["constraints"]["date_not_future"]` flag and the option values. -/
structure Question : Type where
  id : Nat
  code : String
  qtype : QType
  required : Bool
  payloadOrder : Option Int
  dateNotFuture : Bool
  options : List String
  deriving DecidableEq

/-- Embedding of `form_runtime._validate_string`: `None` and `""` pass
through unchanged, other strings are stripped, everything else is an
error. -/
def validate_string (raw : Val) : Val × Option String :=
  match raw with
  | .vnull => (.vnull, none)
  | .vstr s =>
    if s = "" then (.vstr s, none)
    else (.vstr (pyStrip s), none)
  | _ => (.vnull, some "Ожидается текстовая строка.")

/-- Embedding of `form_runtime._validate_email`. -/
def validate_email (raw : Val) : Val × Option String :=
  match validate_string raw with
  | (v, some e) => (v, some e)
  | (v, none) =>
    match v with
    | .vnull => (.vnull, none)
    | .vstr s =>
      if s = "" then (.vstr s, none)
      else if emailOk s then (.vstr s, none)
      else (.vnull, some "Некорректный формат email.")
    | v => (v, none)

/-- Embedding of `form_runtime._validate_phone`. -/
def validate_phone (raw : Val) : Val × Option String :=
  match validate_string raw with
  | (v, some e) => (v, some e)
  | (v, none) =>
    match v with
    | .vnull => (.vnull, none)
    | .vstr s =>
      if s = "" then (.vstr s, none)
      else if phoneOk s then (.vstr s, none)
      else (.vnull, some "Некорректный формат телефона.")
    | v => (v, none)

/-- Embedding of `form_runtime._validate_date`.  `today` stands for the
impure `date.today()` consulted by the `date_not_future` constraint. -/
def validate_date (raw : Val) (dateNotFuture : Bool) (today : PyDate) :
    Val × Option String :=
  match raw with
  | .vnull => (.vnull, none)
  | .vstr s =>
    if s = "" then (.vstr s, none)
    else
      match parse_date s with
      | none => (.vnull, some "Некорректный формат даты.")
      | some d =>
        if dateNotFuture && pyDateLt today d then
          (.vnull, some "Дата не может быть в будущем.")
        else (.vstr (isoformat d), none)
  | _ => (.vnull, some "Ожидается строка в формате YYYY-MM-DD.")

/-- Embedding of `form_runtime._validate_boolean`. -/
def validate_boolean (raw : Val) : Val × Option String :=
  match raw with
  | .vnull => (.vnull, none)
  | .vbool b => (.vbool b, none)
  | .vstr s =>
    if s = "" then (.vnull, none)
    else
      let l := strLower (pyStrip s)
      if l = "true" ∨ l = "1" ∨ l = "yes" ∨ l = "on" then (.vbool true, none)
      else if l = "false" ∨ l = "0" ∨ l = "no" ∨ l = "off" then (.vbool false, none)
      else (.vnull, some "Ожидается булево значение.")
  | _ => (.vnull, some "Ожидается булево значение.")

/-- Embedding of `form_runtime._validate_select`. -/
def validate_select (q : Question) (raw : Val) : Val × Option String :=
  match raw with
  | .vnull => (.vnull, none)
  | .vstr s =>
    if s = "" then (.vstr s, none)
    else if q.options.contains s then (.vstr s, none)
    else (.vnull, some "Недопустимое значение.")
  | _ => (.vnull, some "Ожидается строковое значение.")

/-- The accumulation loop of `form_runtime._validate_multiselect`: items
must be strings drawn from the allowed option values; duplicates are
dropped keeping the first occurrence. -/
def msLoop (allowed : List String) : List Val → List String → Val × Option String
  | [], cleaned => (.vlist (ValList.ofList (cleaned.map .vstr)), none)
  | item :: rest, cleaned =>
    match item with
    | .vstr s =>
      if allowed.contains s then
        if cleaned.contains s then msLoop allowed rest cleaned
        else msLoop allowed rest (cleaned ++ [s])
      else (.vnull, some "Недопустимое значение в списке.")
    | _ => (.vnull, some "Коды вариантов должны быть строками.")

/-- Embedding of `form_runtime._validate_multiselect`. -/
def validate_multiselect (q : Question) (raw : Val) : Val × Option String :=
  match raw with
  | .vnull => (.vlist .nil, none)
  | .vlist .nil => (.vlist .nil, none)
  | .vlist xs => msLoop q.options xs.toList []
  | _ => (.vnull, some "Ожидается список значений.")

/-- The inline `number` branch of `validate_answer_value`: `None`/`""` pass
through, `int`/`float` (and Python `bool`, a subclass of `int`) pass
through, numeric strings coerce via `float(...)`, everything else is an
error. -/
def validate_number (raw : Val) : Val × Option String :=
  match raw with
  | .vnull => (.vnull, none)
  | .vint n => (.vint n, none)
  | .vfloat q => (.vfloat q, none)
  | .vbool b => (.vbool b, none)
  | .vstr s =>
    if s = "" then (.vstr s, none)
    else
      match parseFloat s with
      | some q => (.vfloat q, none)
      | none => (.vnull, some "Ожидается числовое значение.")
  | _ => (.vnull, some "Ожидается числовое значение.")

/-- Embedding of `form_runtime.validate_answer_value`, dispatching on the
question type.  `today` stands for the impure `date.today()` used by the
date constraint check. -/
def validate_answer_value (q : Question) (raw : Val) (today : PyDate) :
    Val × Option String :=
  match q.qtype with
  | .text | .textarea => validate_string raw
  | .email => validate_email raw
  | .phone => validate_phone raw
  | .date => validate_date raw q.dateNotFuture today
  | .boolean | .yes_no => validate_boolean raw
  | .select | .select_one => validate_select q raw
  | .multiselect | .select_many => validate_multiselect q raw
  | .number => validate_number raw
  | .file | .file_multi => (raw, none)

/-- Projection of the `Step` model row: primary key, `order` column and the
owned questions in their database (`id`) order. -/
structure Step : Type where
  id : Nat
  code : String
  order : Int
  questions : List Question
  deriving DecidableEq

/-- Projection of the `Survey` model row: the owned steps as stored (the
runtime orders them itself). -/
structure Survey : Type where
  steps : List Step
  deriving DecidableEq

/-- Projection of the `Condition` model row.  `questionStepId` records the
step of the referenced question (the `question__step` join used by
`visible_questions`); `gotoStep` is the nullable target row. -/
structure Cond : Type where
  id : Nat
  scope : String
  expr : Val
  questionId : Option Nat
  questionStepId : Option Nat
  fromStepId : Option Nat
  gotoStep : Option Step
  deriving DecidableEq

/-- Stable insertion of `x` behind every element `y` with `le y x` (used to
model Python's stable `list.sort`). -/
def insertLe (le : α → α → Bool) (x : α) : List α → List α
  | [] => [x]
  | y :: ys => if le y x then y :: insertLe le x ys else x :: y :: ys

/-- Stable insertion sort, the model of Python's `list.sort` / `order_by`. -/
def insSort (le : α → α → Bool) : List α → List α
  | [] => []
  | x :: xs => insertLe le x (insSort le xs)

/-- Sort key of `visible_questions`: `item.payload.get("order", item.id)`. -/
def qKey (q : Question) : Int :=
  q.payloadOrder.getD (q.id : Int)

/-- Comparison on question sort keys. -/
def qLe (a b : Question) : Bool :=
  qKey a ≤ qKey b

/-- Comparison implementing `order_by("order", "id")` on steps. -/
def stepLe (a b : Step) : Bool :=
  a.order < b.order ∨ (a.order = b.order ∧ a.id ≤ b.id)

/-- The `Condition.objects.filter(scope="question", question__step=step)`
queryset (the global condition table is passed in database `id` order, the
model's default ordering). -/
def question_conditions (conds : List Cond) (step : Step) : List Cond :=
  conds.filter fun c => c.scope = "question" && c.questionStepId = some step.id

/-- The per-question grouping `condition_map.get(question.id)` (grouping a
list by key preserves the relative order, so it equals a filter). -/
def conds_for (qconds : List Cond) (q : Question) : List Cond :=
  qconds.filter fun c => c.questionId = some q.id

/-- Short-circuiting `all(eval_expr(cond.expression, answers) for cond in
required_conditions)`. -/
def eval_conds_all (fuel : Nat) : List Cond → Ctx → Except PyErr Bool
  | [], _ => .ok true
  | c :: cs, ctx => do
    let b ← eval_expr fuel c.expr ctx
    if b then eval_conds_all fuel cs ctx else pure false

/-- The filtering loop of `visible_questions`: questions without attached
conditions are kept, the rest are kept when all their conditions hold. -/
def visLoop (fuel : Nat) (qconds : List Cond) (answers : Ctx) :
    List Question → Except PyErr (List Question)
  | [] => .ok []
  | q :: qs =>
    match conds_for qconds q with
    | [] => do
      let rest ← visLoop fuel qconds answers qs
      pure (q :: rest)
    | c :: cs => do
      let b ← eval_conds_all fuel (c :: cs) answers
      let rest ← visLoop fuel qconds answers qs
      if b then pure (q :: rest) else pure rest

/-- Embedding of `form_runtime.visible_questions`: sort the step's
questions by their order hint, filter by the question-scoped conditions,
sort the survivors again, exactly as the source does. -/
def visible_questions (fuel : Nat) (step : Step) (conds : List Cond) (answers : Ctx) :
    Except PyErr (List Question) := do
  let qconds := question_conditions conds step
  let questions := insSort qLe step.questions
  let vis ← visLoop fuel qconds answers questions
  pure (insSort qLe vis)

/-- The `Condition.objects.filter(scope="step", from_step=current_step)`
queryset. -/
def step_conditions (conds : List Cond) (cur : Step) : List Cond :=
  conds.filter fun c => c.scope = "step" && c.fromStepId = some cur.id

/-- First step-scoped condition whose expression holds; returns its
(nullable) target, or `none` when no condition fires. -/
def first_goto (fuel : Nat) : List Cond → Ctx → Except PyErr (Option (Option Step))
  | [], _ => .ok none
  | c :: cs, ctx => do
    let b ← eval_expr fuel c.expr ctx
    if b then pure (some c.gotoStep) else first_goto fuel cs ctx

/-- Index of the first element satisfying `p` (Python `list.index`, which
compares Django model instances by primary key). -/
def findIdxAux (p : Step → Bool) : List Step → Option Nat
  | [] => none
  | x :: xs => if p x then some 0 else (findIdxAux p xs).map (· + 1)

/-- Embedding of `form_runtime.next_step`.  Django model equality compares
primary keys, so `steps.index(current_step)` searches by `id`; a missing
step (`ValueError`) yields `None`. -/
def next_step (fuel : Nat) (survey : Survey) (current : Option Step)
    (conds : List Cond) (answers : Ctx) : Except PyErr (Option Step) :=
  let steps := insSort stepLe survey.steps
  if steps.isEmpty then .ok none
  else
    match current with
    | none => .ok steps.head?
    | some cur => do
      let m ← first_goto fuel (step_conditions conds cur) answers
      match m with
      | some goto => pure goto
      | none =>
        match findIdxAux (fun t => t.id = cur.id) steps with
        | none => pure none
        | some idx => pure (steps.get? (idx + 1))

/-- Projection of the `Application` model row for the state machine and the
document check: the status string, the nullable submission stamp and the
`applicant_type` tag. -/
structure Application : Type where
  status : String
  submittedAt : Option Nat
  applicantType : String
  deriving DecidableEq

/-- One `ApplicationStatusHistory` row (old and new status; actor and
timestamp are irrelevant to the claims). -/
structure HistoryRow : Type where
  oldStatus : String
  newStatus : String
  deriving DecidableEq

/-- `config/constants.py:APPLICATION_STATUS_ALLOWED_TRANSITIONS`. -/
def APPLICATION_STATUS_ALLOWED_TRANSITIONS : List (String × List String) :=
  [("draft", ["submitted"]),
   ("submitted", ["under_review", "approved", "rejected"])]

/-- The failure raised by `change_status` for an illegal transition:
`django.core.exceptions.ValidationError("Недопустимый переход статуса")`,
which realizes the spec's `StateTransitionError`. -/
inductive TransitionError : Type where
  | validationError (msg : String) : TransitionError
  deriving DecidableEq

/-- Embedding of `application_service.change_status`: the same-status
request short-circuits before the legality check; a legal transition
appends one history row, mutates the status and stamps `submitted_at` when
entering `submitted` (`now` models `timezone.now()`); an illegal one raises
before any mutation.  The audit log written in the same transaction is
outside the model. -/
def change_status (app : Application) (newStatus : String)
    (hist : List HistoryRow) (now : Nat) :
    Except TransitionError (Application × List HistoryRow) :=
  if app.status = newStatus then .ok (app, hist)
  else
    match APPLICATION_STATUS_ALLOWED_TRANSITIONS.lookup app.status with
    | none => .error (.validationError "Недопустимый переход статуса")
    | some targets =>
      if targets.contains newStatus then
        .ok ({ app with
                 status := newStatus,
                 submittedAt :=
                   if newStatus = "submitted" then some now else app.submittedAt },
             hist ++ [⟨app.status, newStatus⟩])
      else .error (.validationError "Недопустимый переход статуса")

/-- Projection of the `DocumentRequirement` model row.  `expression` is
`none` for SQL/JSON null. -/
structure Requirement : Type where
  code : String
  label : String
  expression : Option Val
  deriving DecidableEq

/-- Projection of one `DocumentVersion` as returned by
`documents.services.list_versions` (ordered latest-first per document):
the owning document id, the version status and the owning document's
requirement code / own code. -/
structure DocVersion : Type where
  documentId : Nat
  status : String
  reqCode : Option String
  docCode : Option String
  deriving DecidableEq

/-- One entry of the structured error list returned by the document check. -/
structure FieldError : Type where
  field : String
  message : String
  deriving DecidableEq

/-- The mapping at the top of `_derive_branch`. -/
def branchMapping : List (String × String) :=
  [("self", "adult"), ("relative", "adult"), ("parent", "child"), ("guardian", "child")]

/-- Embedding of `form_runtime._derive_branch`. -/
def derive_branch (app : Application) (answers : Ctx) : Option String :=
  match branchMapping.lookup (pyStrip app.applicantType) with
  | some b => some b
  | none =>
    match ctxFind answers "q_who_fills" with
    | some (.vstr w) => branchMapping.lookup (pyStrip w)
    | _ => none

/-- Python-style age computation of `_derive_age` (clamped at zero). -/
def pyAge (today dob : PyDate) : Nat :=
  (max ((today.year : Int) - (dob.year : Int) -
    (if today.month < dob.month ∨ (today.month = dob.month ∧ today.day < dob.day)
     then 1 else 0)) 0).toNat

/-- Embedding of `form_runtime._derive_age`.  JSON answer values are never
`datetime.date` objects, so only the string branch of the source is
inhabited in the model. -/
def derive_age (answers : Ctx) (today : PyDate) : Option Nat :=
  let dobV := (ctxFind answers "q_dob").getD .vnull
  if pyTruthy dobV then
    match dobV with
    | .vstr s =>
      match parse_date s with
      | none => none
      | some dob => some (pyAge today dob)
    | _ => none
  else none

/-- The enriched evaluation context of `validate_documents`: the answers
plus `branch` and `age` added via `setdefault`. -/
def enrichCtx (app : Application) (answers : Ctx) (today : PyDate) : Ctx :=
  let c1 :=
    match derive_branch app answers with
    | some b =>
      if (ctxFind answers "branch").isSome then answers
      else answers ++ [("branch", .vstr b)]
    | none => answers
  match derive_age answers today with
  | some a =>
    if (ctxFind c1 "age").isSome then c1
    else c1 ++ [("age", .vint a)]
  | none => c1

/-- The code under which a document version is grouped:
`document.requirement.code` when a requirement is attached, else
`document.code or ""`. -/
def codeOf (v : DocVersion) : String :=
  match v.reqCode with
  | some rc => rc
  | none => v.docCode.getD ""

/-- The `latest_by_document` dictionary: the first version seen per
document id (`list_versions` returns versions latest-first). -/
def firstPerDoc : List DocVersion → List Nat → List DocVersion
  | [], _ => []
  | v :: vs, seen =>
    if seen.contains v.documentId then firstPerDoc vs seen
    else v :: firstPerDoc vs (v.documentId :: seen)

/-- `DocumentVersion.Status.AVAILABLE` / `UPLOADED`. -/
def acceptable_statuses : List String := ["available", "uploaded"]

/-- Whether some latest version grouped under `code` is acceptable
(versions with an empty code are skipped by the source's
`if not code: continue`). -/
def hasReady (versions : List DocVersion) (code : String) : Bool :=
  (firstPerDoc versions []).any fun v =>
    codeOf v ≠ "" && codeOf v = code && acceptable_statuses.contains v.status

/-- Whether a requirement row is mandatory: it is unless its gating
expression (when distinct from `None`/`True` under Python `==`) evaluates
false. -/
def requiredOf (fuel : Nat) (ctx : Ctx) (r : Requirement) : Except PyErr Bool :=
  match r.expression with
  | none => pure true
  | some e => if pyEq e (.vbool true) then pure true else eval_expr fuel e ctx

/-- The per-requirement loop of `validate_documents`: each mandatory row
without an acceptable latest version appends one error entry. -/
def doc_loop (fuel : Nat) (ctx : Ctx) (ready : String → Bool) :
    List Requirement → Except PyErr (List FieldError)
  | [] => .ok []
  | r :: rs => do
    let required ← requiredOf fuel ctx r
    let rest ← doc_loop fuel ctx ready rs
    if required && !ready r.code then
      pure ({ field := "documents." ++ r.code,
              message := "Документ «" ++ r.label ++ "» не загружен или ожидает проверки." } :: rest)
    else pure rest

/-- Embedding of `form_runtime.validate_documents`.  The configuration rows
(`survey.doc_requirements`, in `id` order) and the collaborator output
(`list_versions`) are explicit inputs; `today` models `date.today()`. -/
def validate_documents (fuel : Nat) (app : Application) (answers : Ctx)
    (requirements : List Requirement) (versions : List DocVersion)
    (today : PyDate) : Except PyErr (List FieldError) :=
  if requirements.isEmpty then .ok []
  else
    doc_loop fuel (enrichCtx app answers today) (hasReady versions) requirements

/-- Scenario B of the spec: the dotted date format is rejected while the
ISO form is accepted and canonically re-serialized. -/
theorem scenario_b_date_formats :
    parse_date "15.06.2015" = none ∧
    parse_date "2015-06-15" = some ⟨2015, 6, 15⟩ ∧
    isoformat ⟨2015, 6, 15⟩ = "2015-06-15" ∧
    parse_date "2015-02-29" = none ∧
    parse_date "2016-02-29" = some ⟨2016, 2, 29⟩ :=
  ⟨rfl, rfl, rfl, rfl, rfl⟩

/-- Sanity evaluation facts about the evaluator model: an unknown
single-key operator loops to the recursion limit, and an order comparison
against null raises a `TypeError`. -/
theorem eval_expr_failure_modes :
    eval_expr 9 (.vdict (.dcons "frob" (.vint 1) .dnil)) [] = .error .recursionLimit ∧
    eval_expr 9 (.vdict (.dcons ">"
      (.vlist (.cons .vnull (.cons (.vint 1) .nil))) .dnil)) [] = .error .typeError :=
  ⟨rfl, rfl⟩

/-! ## Claims about the application status state machine -/

/-- C1: `change_status` succeeds exactly on the transitions of the table
`draft → {submitted}`, `submitted → {under_review, approved, rejected}`;
requesting the current status again is a no-op returning the application
unchanged and appending no history row; every other source/target pair is
illegal.  A successful real transition appends exactly one history row. -/
theorem c1_change_status_transition_table
    (app : Application) (t : String) (hist : List HistoryRow) (now : Nat) :
    (app.status = t → change_status app t hist now = .ok (app, hist)) ∧
    (app.status ≠ t →
      ((∃ out, change_status app t hist now = .ok out) ↔
        ((app.status = "draft" ∧ t = "submitted") ∨
         (app.status = "submitted" ∧
           (t = "under_review" ∨ t = "approved" ∨ t = "rejected"))))) ∧
    (∀ app' hist', app.status ≠ t →
      change_status app t hist now = .ok (app', hist') →
      hist' = hist ++ [⟨app.status, t⟩]) := by
  refine ⟨?_, ?_, ?_⟩
  · intro h
    simp [change_status, h]
  · intro hne
    unfold change_status
    rw [if_neg hne]
    constructor
    · rintro ⟨out, hout⟩
      by_cases hd : app.status = "draft"
      · by_cases ht : t = "submitted"
        · exact Or.inl ⟨hd, ht⟩
        · simp [APPLICATION_STATUS_ALLOWED_TRANSITIONS, List.lookup, hd, ht] at hout
      · by_cases hs : app.status = "submitted"
        · by_cases h1 : t = "under_review"
          · exact Or.inr ⟨hs, Or.inl h1⟩
          by_cases h2 : t = "approved"
          · exact Or.inr ⟨hs, Or.inr (Or.inl h2)⟩
          by_cases h3 : t = "rejected"
          · exact Or.inr ⟨hs, Or.inr (Or.inr h3)⟩
          simp [APPLICATION_STATUS_ALLOWED_TRANSITIONS, List.lookup, hd, hs,
            h1, h2, h3] at hout
        · have hd' : (app.status == "draft") = false := beq_eq_false_iff_ne.mpr hd
          have hs' : (app.status == "submitted") = false := beq_eq_false_iff_ne.mpr hs
          simp [APPLICATION_STATUS_ALLOWED_TRANSITIONS, List.lookup, hd', hs'] at hout
    · rintro (⟨hd, ht⟩ | ⟨hs, ht⟩)
      · subst ht
        simp [APPLICATION_STATUS_ALLOWED_TRANSITIONS, List.lookup, hd]
      · rcases ht with h1 | h2 | h3 <;> subst_vars <;>
          simp [APPLICATION_STATUS_ALLOWED_TRANSITIONS, List.lookup, hs]
  · intro app' hist' hne hok
    unfold change_status at hok
    rw [if_neg hne] at hok
    split at hok
    · simp at hok
    · split at hok
      · simp only [Except.ok.injEq, Prod.mk.injEq] at hok
        exact hok.2.symm
      · simp at hok

/-- Witness for C1 at a concrete draft application: the table admits
`draft → submitted`. -/
theorem c1_witness :
    ∃ out, change_status ⟨"draft", none, ""⟩ "submitted" [] 0 = .ok out :=
  ((c1_change_status_transition_table ⟨"draft", none, ""⟩ "submitted" [] 0).2.1
    (by decide)).mpr (Or.inl ⟨rfl, rfl⟩)

/-- C2: from a draft application, requesting `approved` (or any target
other than the legal `submitted` and the no-op `draft`) fails with the
`ValidationError("Недопустимый переход статуса")` that realizes the spec's
`StateTransitionError`; the function returns no new application state and
no new history list, so the status field and the history are untouched. -/
theorem c2_draft_illegal_target_rejected
    (app : Application) (t : String) (hist : List HistoryRow) (now : Nat)
    (hdraft : app.status = "draft") (ht1 : t ≠ "draft") (ht2 : t ≠ "submitted") :
    change_status app t hist now =
      .error (.validationError "Недопустимый переход статуса") := by
  unfold change_status
  rw [if_neg (by rw [hdraft]; exact fun h => ht1 h.symm)]
  simp [APPLICATION_STATUS_ALLOWED_TRANSITIONS, List.lookup, hdraft, ht2]

/-- Witness for C2: `change_status` from draft to `approved` errors. -/
theorem c2_witness :
    change_status ⟨"draft", none, ""⟩ "approved" [] 0 =
      .error (.validationError "Недопустимый переход статуса") :=
  c2_draft_illegal_target_rejected ⟨"draft", none, ""⟩ "approved" [] 0 rfl
    (by decide) (by decide)

/-! ## Claims about the expression evaluator -/

/-- C10: a string operand starting with `"$"` is not a literal: the
resolver looks the remainder up in the context (missing key becomes null),
and consequently `{"==": ["$q_age", n]}` compares `context["q_age"]` with
`n` under Python equality. -/
theorem c10_dollar_operand_resolution :
    (∀ (fuel : Nat) (rest : List Char) (ctx : Ctx),
      resolve_operand (fuel + 1) (.vstr (String.mk ('$' :: rest))) ctx =
        .ok ((ctxFind ctx (String.mk rest)).getD .vnull)) ∧
    (∀ (fuel : Nat) (ctx : Ctx) (n : Int),
      eval_expr (fuel + 4)
        (.vdict (.dcons "=="
          (.vlist (.cons (.vstr "$q_age") (.cons (.vint n) .nil))) .dnil)) ctx =
        .ok (pyEq ((ctxFind ctx "q_age").getD .vnull) (.vint n))) :=
  ⟨fun _ _ _ => rfl, fun _ _ _ => rfl⟩

/-! ## Claims about the answer validators -/

/-- A boolean consent question, as in the repository's own test fixture. -/
def qBoolFixture : Question := ⟨1, "q_agree", .boolean, true, none, false, []⟩

/-- An optional text question. -/
def qTextFixture : Question := ⟨2, "q_name", .text, false, none, false, []⟩

/-- A fixed evaluation day for the impure `date.today()`. -/
def today0 : PyDate := ⟨2026, 1, 1⟩

/-- Counterexample to C5 as stated: the boolean validator has no localized
tokens; the localized yes (`"да"`) is rejected with an error instead of
mapping to `true`. -/
theorem c5_counterexample :
    validate_answer_value qBoolFixture (.vstr "да") today0 =
      (.vnull, some "Ожидается булево значение.") ∧
    validate_answer_value qBoolFixture (.vstr "да") today0 ≠ (.vbool true, none) :=
  ⟨rfl, by decide⟩

/-- C5 (amended): for boolean/yes-no questions the validator maps a bool to
itself and maps a non-empty string to `true` exactly when its stripped,
lowercased form is one of `true/1/yes/on`, to `false` exactly when it is
one of `false/0/no/off` (no localized tokens); `null` and the empty string
normalize to `null` without error, and every other value errors with a
`null` normalized value. -/
theorem c5_boolean_validator_tokens
    (q : Question) (today : PyDate) (h : q.qtype = .boolean ∨ q.qtype = .yes_no) :
    (∀ b, validate_answer_value q (.vbool b) today = (.vbool b, none)) ∧
    (validate_answer_value q .vnull today = (.vnull, none)) ∧
    (validate_answer_value q (.vstr "") today = (.vnull, none)) ∧
    (∀ s, s ≠ "" →
      ((validate_answer_value q (.vstr s) today = (.vbool true, none) ↔
        strLower (pyStrip s) ∈ (["true", "1", "yes", "on"] : List String)) ∧
       (validate_answer_value q (.vstr s) today = (.vbool false, none) ↔
        strLower (pyStrip s) ∈ (["false", "0", "no", "off"] : List String)) ∧
       (validate_answer_value q (.vstr s) today =
          (.vnull, some "Ожидается булево значение.") ↔
        (strLower (pyStrip s) ∉ (["true", "1", "yes", "on"] : List String) ∧
         strLower (pyStrip s) ∉ (["false", "0", "no", "off"] : List String))))) ∧
    (∀ n, validate_answer_value q (.vint n) today =
      (.vnull, some "Ожидается булево значение.")) ∧
    (∀ xs, validate_answer_value q (.vlist xs) today =
      (.vnull, some "Ожидается булево значение.")) := by
  have hq : ∀ raw, validate_answer_value q raw today = validate_boolean raw := by
    intro raw
    rcases h with h | h <;> simp [validate_answer_value, h]
  refine ⟨fun b => by rw [hq]; rfl, by rw [hq]; rfl, by rw [hq]; rfl, ?_,
    fun n => by rw [hq]; rfl, fun xs => by rw [hq]; rfl⟩
  intro s hs
  rw [hq]
  simp only [validate_boolean]
  rw [if_neg hs]
  by_cases h1 : strLower (pyStrip s) = "true" ∨ strLower (pyStrip s) = "1" ∨
      strLower (pyStrip s) = "yes" ∨ strLower (pyStrip s) = "on"
  · rw [if_pos h1]
    refine ⟨by simpa using h1, ?_, ?_⟩ <;>
      rcases h1 with h | h | h | h <;> simp [h]
  · rw [if_neg h1]
    by_cases h2 : strLower (pyStrip s) = "false" ∨ strLower (pyStrip s) = "0" ∨
        strLower (pyStrip s) = "no" ∨ strLower (pyStrip s) = "off"
    · rw [if_pos h2]
      refine ⟨?_, by simpa using h2, ?_⟩ <;>
        rcases h2 with h | h | h | h <;> simp [h]
    · rw [if_neg h2]
      push_neg at h1 h2
      refine ⟨by simp [h1.1, h1.2.1, h1.2.2.1, h1.2.2.2],
        by simp [h2.1, h2.2.1, h2.2.2.1, h2.2.2.2], ?_⟩
      simp [h1.1, h1.2.1, h1.2.2.1, h1.2.2.2, h2.1, h2.2.1, h2.2.2.1, h2.2.2.2]

/-- Witness for C5 (amended) at a boolean question and a bool input. -/
theorem c5_witness :
    validate_answer_value qBoolFixture (.vbool true) today0 = (.vbool true, none) :=
  (c5_boolean_validator_tokens qBoolFixture today0 (Or.inl rfl)).1 true

/-- Counterexample to C6 as stated: an empty string answer to a text
question is returned unchanged as `""`, not normalized to `null`. -/
theorem c6_counterexample :
    validate_answer_value qTextFixture (.vstr "") today0 = (.vstr "", none) ∧
    validate_answer_value qTextFixture (.vstr "") today0 ≠ (.vnull, none) :=
  ⟨rfl, by decide⟩

/-- C6 (amended): for text/textarea questions validation accepts only
strings and `null`: `null` stays `null`, a non-empty string is returned
stripped, the empty string is returned unchanged (as `""`, not `null`),
and any non-string non-null value errors with a `null` normalized value. -/
theorem c6_text_validator
    (q : Question) (today : PyDate) (h : q.qtype = .text ∨ q.qtype = .textarea) :
    (validate_answer_value q .vnull today = (.vnull, none)) ∧
    (validate_answer_value q (.vstr "") today = (.vstr "", none)) ∧
    (∀ s, s ≠ "" →
      validate_answer_value q (.vstr s) today = (.vstr (pyStrip s), none)) ∧
    (∀ n, validate_answer_value q (.vint n) today =
      (.vnull, some "Ожидается текстовая строка.")) ∧
    (∀ b, validate_answer_value q (.vbool b) today =
      (.vnull, some "Ожидается текстовая строка.")) ∧
    (∀ xs, validate_answer_value q (.vlist xs) today =
      (.vnull, some "Ожидается текстовая строка.")) := by
  have hq : ∀ raw, validate_answer_value q raw today = validate_string raw := by
    intro raw
    rcases h with h | h <;> simp [validate_answer_value, h]
  refine ⟨by rw [hq]; rfl, by rw [hq]; rfl, ?_, fun n => by rw [hq]; rfl,
    fun b => by rw [hq]; rfl, fun xs => by rw [hq]; rfl⟩
  intro s hs
  rw [hq]
  simp [validate_string, hs]

/-- Witness for C6 (amended): a padded string is returned stripped. -/
theorem c6_witness :
    validate_answer_value qTextFixture (.vstr " hi ") today0 = (.vstr "hi", none) :=
  ((c6_text_validator qTextFixture today0 (Or.inl rfl)).2.2.1 " hi "
    (by decide)).trans (by decide)

/-! ## Sorting lemmas and claims about step navigation -/

/-- Inserting permutes: the result is the element consed to the list. -/
theorem insertLe_perm (le : α → α → Bool) (x : α) (l : List α) :
    List.Perm (insertLe le x l) (x :: l) := by
  induction l with
  | nil => exact List.Perm.refl _
  | cons y ys ih =>
    simp only [insertLe]
    by_cases h : le y x
    · rw [if_pos h]
      exact (ih.cons y).trans (List.Perm.swap x y ys)
    · rw [if_neg h]

/-- Insertion sort permutes its input. -/
theorem insSort_perm (le : α → α → Bool) (l : List α) :
    List.Perm (insSort le l) l := by
  induction l with
  | nil => exact List.Perm.refl _
  | cons x xs ih => exact (insertLe_perm le x (insSort le xs)).trans (ih.cons x)

/-- Inserting into a sorted list keeps it sorted, given a total transitive
comparison. -/
theorem insertLe_pairwise (le : α → α → Bool)
    (htot : ∀ a b, le a b = true ∨ le b a = true)
    (htrans : ∀ a b c, le a b = true → le b c = true → le a c = true)
    (x : α) (l : List α) (h : l.Pairwise (le · · = true)) :
    (insertLe le x l).Pairwise (le · · = true) := by
  induction l with
  | nil => simp [insertLe]
  | cons y ys ih =>
    rw [List.pairwise_cons] at h
    simp only [insertLe]
    by_cases hyx : le y x
    · rw [if_pos hyx]
      rw [List.pairwise_cons]
      refine ⟨?_, ih h.2⟩
      intro z hz
      rcases List.mem_cons.mp ((insertLe_perm le x ys).mem_iff.mp hz) with rfl | hz
      · exact hyx
      · exact h.1 z hz
    · rw [if_neg hyx]
      rw [List.pairwise_cons]
      have hxy : le x y = true := (htot x y).resolve_right (by simpa using hyx)
      refine ⟨?_, List.pairwise_cons.mpr h⟩
      intro z hz
      rcases List.mem_cons.mp hz with rfl | hz
      · exact hxy
      · exact htrans x y z hxy (h.1 z hz)

/-- Insertion sort sorts, given a total transitive comparison. -/
theorem insSort_pairwise (le : α → α → Bool)
    (htot : ∀ a b, le a b = true ∨ le b a = true)
    (htrans : ∀ a b c, le a b = true → le b c = true → le a c = true)
    (l : List α) : (insSort le l).Pairwise (le · · = true) := by
  induction l with
  | nil => simp [insSort]
  | cons x xs ih => exact insertLe_pairwise le htot htrans x (insSort le xs) ih

/-- The step comparison is total. -/
theorem stepLe_total (a b : Step) : stepLe a b = true ∨ stepLe b a = true := by
  simp only [stepLe, decide_eq_true_eq]
  omega

/-- The step comparison is transitive. -/
theorem stepLe_trans (a b c : Step) :
    stepLe a b = true → stepLe b c = true → stepLe a c = true := by
  simp only [stepLe, decide_eq_true_eq]
  omega

/-- A run of false conditions produces no redirect. -/
theorem first_goto_none (fuel : Nat) (l : List Cond) (ctx : Ctx)
    (h : ∀ c ∈ l, eval_expr fuel c.expr ctx = .ok false) :
    first_goto fuel l ctx = .ok none := by
  induction l with
  | nil => rfl
  | cons c cs ih =>
    simp only [first_goto]
    rw [h c (List.mem_cons_self c cs)]
    simpa using ih fun d hd => h d (List.mem_cons_of_mem c hd)

/-- In a list whose `id`s are distinct and whose last element is `cur`, the
first index with `cur`'s id is the last position. -/
theorem findIdxAux_last (l : List Step) (cur : Step)
    (hlast : l.getLast? = some cur) (hnd : (l.map Step.id).Nodup) :
    findIdxAux (fun t => t.id = cur.id) l = some (l.length - 1) := by
  induction l with
  | nil => simp at hlast
  | cons x xs ih =>
    cases xs with
    | nil =>
      simp only [List.getLast?_singleton, Option.some.injEq] at hlast
      subst hlast
      simp [findIdxAux]
    | cons y ys =>
      have hlast' : (y :: ys).getLast? = some cur := by
        simpa [List.getLast?_cons_cons] using hlast
      have hnd' : ((y :: ys).map Step.id).Nodup := by
        simpa using hnd.of_cons
      have hcur_mem : cur ∈ y :: ys := by
        have hh := List.getLast?_eq_getLast (y :: ys) (by simp)
        rw [hlast'] at hh
        have hgl : (y :: ys).getLast (by simp) = cur := by simpa using hh.symm
        exact hgl ▸ List.getLast_mem _
      have hxne : ¬x.id = cur.id := by
        intro hxid
        have hmem : cur.id ∈ (y :: ys).map Step.id := List.mem_map_of_mem Step.id hcur_mem
        rw [List.map_cons] at hnd
        have hnotin := (List.nodup_cons.mp hnd).1
        rw [hxid] at hnotin
        exact hnotin hmem
      have hunfold : findIdxAux (fun t => t.id = cur.id) (x :: y :: ys) =
          (findIdxAux (fun t => t.id = cur.id) (y :: ys)).map (· + 1) := by
        simp only [findIdxAux]
        rw [if_neg (by simpa using hxne)]
      rw [hunfold, ih hlast' hnd']
      have hlen2 : (y :: ys).length - 1 + 1 = (x :: y :: ys).length - 1 := by
        simp only [List.length_cons]
        omega
      simp [hlen2]

/-- C7: with a null current step, `next_step` returns the first step of the
survey's ordered list (the minimum under `order_by("order", "id")`), or
null for an empty survey; and when the current step is the last of the
ordered list (primary keys being distinct) and none of its step-scoped
conditions fires, `next_step` returns null. -/
theorem c7_next_step_first_and_last
    (fuel : Nat) (survey : Survey) (conds : List Cond) (answers : Ctx) :
    (survey.steps = [] → next_step fuel survey none conds answers = .ok none) ∧
    (survey.steps ≠ [] →
      ∃ s, next_step fuel survey none conds answers = .ok (some s) ∧
        s ∈ survey.steps ∧ ∀ t ∈ survey.steps, stepLe s t = true) ∧
    (∀ cur, (insSort stepLe survey.steps).getLast? = some cur →
      (survey.steps.map Step.id).Nodup →
      (∀ c ∈ step_conditions conds cur, eval_expr fuel c.expr answers = .ok false) →
      next_step fuel survey (some cur) conds answers = .ok none) := by
  refine ⟨?_, ?_, ?_⟩
  · intro h
    simp [next_step, h, insSort]
  · intro h
    have hperm := insSort_perm stepLe survey.steps
    have hne : insSort stepLe survey.steps ≠ [] := by
      intro hcon
      exact h (List.Perm.eq_nil (hcon ▸ hperm.symm))
    rcases hsort : insSort stepLe survey.steps with - | ⟨s, rest⟩
    · exact absurd hsort hne
    refine ⟨s, ?_, ?_, ?_⟩
    · simp only [next_step, hsort]
      rw [if_neg (by simp)]
      rfl
    · exact hperm.mem_iff.mp (hsort ▸ List.mem_cons_self s rest)
    · intro t ht
      have hts : t ∈ s :: rest := hsort ▸ hperm.mem_iff.mpr ht
      have hpw := insSort_pairwise stepLe stepLe_total stepLe_trans survey.steps
      rw [hsort, List.pairwise_cons] at hpw
      rcases List.mem_cons.mp hts with rfl | hts
      · simp [stepLe]
      · exact hpw.1 t hts
  · intro cur hlast hnd hconds
    have hperm := insSort_perm stepLe survey.steps
    have hnd' : ((insSort stepLe survey.steps).map Step.id).Nodup :=
      (hperm.map Step.id).nodup_iff.mpr hnd
    have hne : (insSort stepLe survey.steps) ≠ [] := by
      intro hcon
      rw [hcon] at hlast
      simp at hlast
    simp only [next_step]
    rw [if_neg (by simpa using hne)]
    rw [first_goto_none fuel _ answers hconds]
    show (match findIdxAux (fun t => t.id = cur.id) (insSort stepLe survey.steps) with
      | none => (pure none : Except PyErr (Option Step))
      | some idx => pure ((insSort stepLe survey.steps).get? (idx + 1))) = .ok none
    rw [findIdxAux_last _ cur hlast hnd']
    have hlen : (insSort stepLe survey.steps).length - 1 + 1 =
        (insSort stepLe survey.steps).length := by
      have hpos : 0 < (insSort stepLe survey.steps).length := List.length_pos.mpr hne
      omega
    show (pure ((insSort stepLe survey.steps).get?
      ((insSort stepLe survey.steps).length - 1 + 1)) : Except PyErr (Option Step)) = .ok none
    rw [hlen]
    rw [List.get?_eq_none.mpr (le_refl _)]
    rfl

/-- A two-step survey fixture (`intro`, `basic`). -/
def stepIntro : Step := ⟨1, "intro", 0, []⟩

/-- Second step of the fixture survey. -/
def stepBasic : Step := ⟨2, "basic", 1, []⟩

/-- The fixture survey. -/
def surveyFixture : Survey := ⟨[stepIntro, stepBasic]⟩

/-- Witness for C7: on the two-step fixture, the first step is `intro` and
from the last step with no conditions the navigator returns null. -/
theorem c7_witness :
    (∃ s, next_step 5 surveyFixture none [] [] = .ok (some s) ∧
      s ∈ surveyFixture.steps ∧ ∀ t ∈ surveyFixture.steps, stepLe s t = true) ∧
    next_step 5 surveyFixture (some stepBasic) [] [] = .ok none :=
  ⟨(c7_next_step_first_and_last 5 surveyFixture [] []).2.1 (by decide),
   (c7_next_step_first_and_last 5 surveyFixture [] []).2.2 stepBasic (by decide)
     (by decide) (fun c hc => absurd hc (by simp [step_conditions]))⟩

/-! ## Claims about question visibility -/

/-- Monadic bind on a successful `Except` computation. -/
theorem okBind (a : α) (f : α → Except ε β) : (Except.ok a >>= f) = f a := rfl

/-- Monadic bind on a failed `Except` computation. -/
theorem errorBind (e : ε) (f : α → Except ε β) :
    ((Except.error e : Except ε α) >>= f) = .error e := rfl

/-- Pure is `ok` for `Except`. -/
theorem pureEqOk (a : α) : (pure a : Except ε α) = .ok a := rfl

/-- The conjunction over condition rows succeeds with `true` exactly when
every row's expression evaluates to `ok true`. -/
theorem eval_conds_all_true_iff (fuel : Nat) (l : List Cond) (ctx : Ctx) :
    eval_conds_all fuel l ctx = .ok true ↔
      ∀ c ∈ l, eval_expr fuel c.expr ctx = .ok true := by
  induction l with
  | nil => simp [eval_conds_all]
  | cons c cs ih =>
    simp only [eval_conds_all]
    constructor
    · intro h
      cases heval : eval_expr fuel c.expr ctx with
      | error e => rw [heval, errorBind] at h; exact absurd h (by simp)
      | ok b =>
        rw [heval, okBind] at h
        cases b with
        | false => rw [if_neg (by simp)] at h; exact absurd h (by simp [pureEqOk])
        | true =>
          rw [if_pos rfl] at h
          intro d hd
          rcases List.mem_cons.mp hd with rfl | hd
          · exact heval
          · exact ih.mp h d hd
    · intro h
      rw [h c (List.mem_cons_self c cs), okBind, if_pos rfl]
      exact ih.mpr fun d hd => h d (List.mem_cons_of_mem c hd)

/-- Membership characterization of the visibility filtering loop. -/
theorem visLoop_mem (fuel : Nat) (qconds : List Cond) (answers : Ctx) :
    ∀ (qs : List Question) (l : List Question),
      visLoop fuel qconds answers qs = .ok l →
      ∀ q, q ∈ l ↔ (q ∈ qs ∧
        (conds_for qconds q = [] ∨
          eval_conds_all fuel (conds_for qconds q) answers = .ok true)) := by
  intro qs
  induction qs with
  | nil =>
    intro l h q
    simp only [visLoop] at h
    cases h
    simp
  | cons q' qs' ih =>
    intro l h q
    simp only [visLoop] at h
    rcases hc : conds_for qconds q' with - | ⟨c, cs⟩
    · simp only [hc] at h
      cases hrest : visLoop fuel qconds answers qs' with
      | error e => rw [hrest, errorBind] at h; exact absurd h (by simp)
      | ok rest =>
        rw [hrest, okBind, pureEqOk] at h
        cases h
        by_cases hqq : q = q'
        · subst hqq
          simp [hc]
        · simp only [List.mem_cons, hqq, false_or]
          rw [ih _ hrest q]
    · simp only [hc] at h
      cases heval : eval_conds_all fuel (c :: cs) answers with
      | error e => rw [heval, errorBind] at h; exact absurd h (by simp)
      | ok b =>
        rw [heval, okBind] at h
        cases hrest : visLoop fuel qconds answers qs' with
        | error e => rw [hrest, errorBind] at h; exact absurd h (by simp)
        | ok rest =>
          rw [hrest, okBind] at h
          by_cases hqq : q = q'
          · subst hqq
            cases b with
            | true =>
              rw [if_pos rfl, pureEqOk] at h
              cases h
              simp [hc, heval]
            | false =>
              rw [if_neg (by simp), pureEqOk] at h
              cases h
              rw [ih _ hrest q]
              simp only [List.mem_cons, true_or, true_and, hc]
              constructor
              · rintro ⟨-, (hnil | htrue)⟩
                · exact absurd hnil (by simp)
                · rw [heval] at htrue
                  exact absurd htrue (by simp)
              · rintro (hnil | htrue)
                · exact absurd hnil (by simp)
                · rw [heval] at htrue
                  exact absurd htrue (by simp)
          · have hl : q ∈ l ↔ q ∈ rest := by
              cases b with
              | true => rw [if_pos rfl, pureEqOk] at h; cases h; simp [hqq]
              | false => rw [if_neg (by simp), pureEqOk] at h; cases h; rfl
            rw [hl, ih rest hrest q]
            simp [hqq]

/-- C8: for a question of the step, having no attached question-scoped
condition guarantees inclusion in `visible_questions`; with attached
conditions, the question is included iff every one of those condition
rows' expressions evaluates to true. -/
theorem c8_visible_questions_conjunction
    (fuel : Nat) (step : Step) (conds : List Cond) (answers : Ctx)
    (vis : List Question) (h : visible_questions fuel step conds answers = .ok vis)
    (q : Question) (hq : q ∈ step.questions) :
    (conds_for (question_conditions conds step) q = [] → q ∈ vis) ∧
    (conds_for (question_conditions conds step) q ≠ [] →
      (q ∈ vis ↔
        ∀ c ∈ conds_for (question_conditions conds step) q,
          eval_expr fuel c.expr answers = .ok true)) := by
  simp only [visible_questions] at h
  cases hloop : visLoop fuel (question_conditions conds step) answers
      (insSort qLe step.questions) with
  | error e => rw [hloop, errorBind] at h; exact absurd h (by simp)
  | ok l0 =>
    rw [hloop, okBind, pureEqOk] at h
    cases h
    have hqsort : q ∈ insSort qLe step.questions :=
      (insSort_perm qLe step.questions).mem_iff.mpr hq
    have hmem := visLoop_mem fuel (question_conditions conds step) answers
      (insSort qLe step.questions) l0 hloop q
    have hvis : q ∈ insSort qLe l0 ↔ q ∈ l0 := (insSort_perm qLe l0).mem_iff
    constructor
    · intro hnone
      exact hvis.mpr (hmem.mpr ⟨hqsort, Or.inl hnone⟩)
    · intro hsome
      rw [hvis, hmem]
      constructor
      · rintro ⟨-, (hnil | htrue)⟩
        · exact absurd hnil hsome
        · exact (eval_conds_all_true_iff fuel _ answers).mp htrue
      · intro hall
        exact ⟨hqsort, Or.inr ((eval_conds_all_true_iff fuel _ answers).mpr hall)⟩

/-- A question gated by a condition row, used in the C8 witness. -/
def qGated : Question := ⟨3, "q_child_info", .text, false, none, false, []⟩

/-- A step containing a free and a gated question. -/
def stepFixture : Step := ⟨7, "details", 0, [qTextFixture, qGated]⟩

/-- A question-scoped condition row attached to `qGated`. -/
def condGate : Cond :=
  ⟨11, "question", .vdict (.dcons "=="
    (.vlist (.cons (.vdict (.dcons "var" (.vstr "q_who") .dnil))
      (.cons (.vstr "child") .nil))) .dnil),
    some 3, some 7, none, none⟩

/-- Witness for C8: on a concrete step, the condition-free question is
visible, and the gated question is visible under the matching answer map
because its only condition evaluates true. -/
theorem c8_witness :
    ∃ vis, visible_questions 6 stepFixture [condGate] [("q_who", .vstr "child")] = .ok vis ∧
      qTextFixture ∈ vis ∧ qGated ∈ vis := by
  refine ⟨[qTextFixture, qGated], rfl, ?_, ?_⟩
  · exact (c8_visible_questions_conjunction 6 stepFixture [condGate]
      [("q_who", .vstr "child")] [qTextFixture, qGated] rfl qTextFixture
      (by simp [stepFixture])).1 (by decide)
  · refine ((c8_visible_questions_conjunction 6 stepFixture [condGate]
      [("q_who", .vstr "child")] [qTextFixture, qGated] rfl qGated
      (by simp [stepFixture])).2 (by decide)).mpr ?_
    intro c hc
    have hcs : c = condGate := by
      have : conds_for (question_conditions [condGate] stepFixture) qGated = [condGate] := by
        decide
      rw [this] at hc
      simpa using hc
    subst hcs
    rfl

/-! ## Claims about the document requirement check -/

/-- Boolean form of "this requirement row is mandatory". -/
def requiredOk (fuel : Nat) (ctx : Ctx) (r : Requirement) : Bool :=
  match requiredOf fuel ctx r with
  | .ok true => true
  | _ => false

/-- Prepending the same string preserves and reflects equality. -/
theorem strAppendCancel (p a b : String) : p ++ a = p ++ b ↔ a = b := by
  constructor
  · intro h
    have hdata : p.data ++ a.data = p.data ++ b.data := by
      have hh := congrArg String.data h
      simpa [String.data_append] using hh
    have h2 := List.append_cancel_left hdata
    cases a; cases b; exact congrArg String.mk (by simpa using h2)
  · intro h; rw [h]

/-- Counting lemma for the requirement loop: the number of error entries
for a code equals the number of mandatory-and-unmet rows carrying it. -/
theorem doc_loop_count (fuel : Nat) (ctx : Ctx) (ready : String → Bool) :
    ∀ (reqs : List Requirement) (errs : List FieldError),
      doc_loop fuel ctx ready reqs = .ok errs →
      ∀ code : String,
        errs.countP (fun e => e.field = "documents." ++ code) =
          reqs.countP (fun r =>
            r.code = code && requiredOk fuel ctx r && !ready r.code) := by
  intro reqs
  induction reqs with
  | nil =>
    intro errs h code
    simp only [doc_loop] at h
    cases h
    simp
  | cons r rs ih =>
    intro errs h code
    simp only [doc_loop] at h
    cases hreq : requiredOf fuel ctx r with
    | error e => rw [hreq, errorBind] at h; exact absurd h (by simp)
    | ok b =>
      rw [hreq, okBind] at h
      cases hrest : doc_loop fuel ctx ready rs with
      | error e => rw [hrest, errorBind] at h; exact absurd h (by simp)
      | ok rest =>
        rw [hrest, okBind] at h
        have hok : requiredOk fuel ctx r = b := by
          unfold requiredOk
          rw [hreq]
          cases b <;> rfl
        by_cases hcond : b && !ready r.code
        · rw [if_pos hcond, pureEqOk] at h
          cases h
          have hb : b = true := by
            cases b
            · simp at hcond
            · rfl
          subst hb
          have hready : ready r.code = false := by simpa using hcond
          rw [List.countP_cons, List.countP_cons, ih _ hrest code]
          by_cases hcode : r.code = code
          · subst hcode
            simp [strAppendCancel, hok, hready]
          · simp [strAppendCancel, hcode]
        · rw [if_neg hcond, pureEqOk] at h
          cases h
          rw [List.countP_cons, ih _ hrest code]
          have hflag : (decide (r.code = code) && requiredOk fuel ctx r &&
              !ready r.code) = false := by
            rw [hok]
            cases b
            · simp
            · have h2 : (!ready r.code) = false := by simpa using hcond
              simp [h2]
          simp [hflag]

/-- C3 (amended): `validate_documents` appends one error entry per
mandatory-and-unmet requirement ROW, so a requirement code configured in
two rows that are both mandatory and unmet yields two (identical) error
entries rather than one. -/
theorem c3_errors_count_rows
    (fuel : Nat) (app : Application) (answers : Ctx)
    (reqs : List Requirement) (versions : List DocVersion) (today : PyDate)
    (errs : List FieldError)
    (h : validate_documents fuel app answers reqs versions today = .ok errs)
    (code : String) :
    errs.countP (fun e => e.field = "documents." ++ code) =
      reqs.countP (fun r =>
        r.code = code && requiredOk fuel (enrichCtx app answers today) r &&
          !hasReady versions r.code) := by
  simp only [validate_documents] at h
  by_cases hreqs : reqs.isEmpty
  · rw [if_pos hreqs] at h
    cases h
    rcases reqs with - | ⟨r, rs⟩
    · simp
    · simp at hreqs
  · rw [if_neg hreqs] at h
    exact doc_loop_count fuel _ _ reqs errs h code

/-- The duplicated requirement configuration used by the C3 scenario. -/
def reqDup : Requirement := ⟨"r1", "Справка", none⟩

/-- The error entry produced for the duplicated requirement. -/
def errDup : FieldError :=
  ⟨"documents.r1", "Документ «Справка» не загружен или ожидает проверки."⟩

/-- A draft application fixture. -/
def appDraft : Application := ⟨"draft", none, ""⟩

/-- Counterexample to C3 as stated: with one mandatory document missing and
its requirement configured twice, `validate_documents` returns TWO error
entries for that requirement code, not one. -/
theorem c3_counterexample :
    validate_documents 5 appDraft [] [reqDup, reqDup] [] today0 =
      .ok [errDup, errDup] ∧
    ([errDup, errDup].countP (fun e => e.field = "documents.r1")) = 2 :=
  ⟨rfl, rfl⟩

/-- Witness for C3 (amended) at the duplicated configuration: both the
error count and the mandatory-unmet row count equal two. -/
theorem c3_witness :
    ([errDup, errDup].countP (fun e => e.field = "documents." ++ "r1")) =
      ([reqDup, reqDup].countP (fun r =>
        r.code = "r1" && requiredOk 5 (enrichCtx appDraft [] today0) r &&
          !hasReady [] r.code)) :=
  c3_errors_count_rows 5 appDraft [] [reqDup, reqDup] [] today0 [errDup, errDup] rfl "r1"

/-! ## Claims about context independence of the evaluator -/

/- Whether an expression contains a `var` reference, i.e. a dictionary
entry with key `"var"` anywhere (this is the claim's notion of "var-free"
and does not restrict strings). -/
mutual

def noVarRef : Val → Bool
  | .vnull => true
  | .vbool _ => true
  | .vint _ => true
  | .vfloat _ => true
  | .vstr _ => true
  | .vlist xs => noVarRefL xs
  | .vdict d => noVarRefD d

def noVarRefL : ValList → Bool
  | .nil => true
  | .cons v tl => noVarRef v && noVarRefL tl

def noVarRefD : ValDict → Bool
  | .dnil => true
  | .dcons k v tl => decide (k ≠ "var") && noVarRef v && noVarRefD tl

end

/- Whether an expression is context-free: no `var`-keyed dictionary entry
and no `$` character in any string value or dictionary key.  (Stronger
than the absence of `$`-prefixed operands: iterating a string or a
dictionary turns inner characters and keys into stand-alone operands, so
any `$` can reach the resolver.) -/
mutual

def ctxFree : Val → Bool
  | .vnull => true
  | .vbool _ => true
  | .vint _ => true
  | .vfloat _ => true
  | .vstr s => !s.data.contains '$'
  | .vlist xs => ctxFreeL xs
  | .vdict d => ctxFreeD d

def ctxFreeL : ValList → Bool
  | .nil => true
  | .cons v tl => ctxFree v && ctxFreeL tl

def ctxFreeD : ValDict → Bool
  | .dnil => true
  | .dcons k v tl =>
    decide (k ≠ "var") && !k.data.contains '$' && ctxFree v && ctxFreeD tl

end

/-- Elements of a context-free embedded list are context-free. -/
theorem ctxFreeL_mem : ∀ (xs : ValList), ctxFreeL xs = true →
    ∀ x ∈ xs.toList, ctxFree x = true
  | .nil, _, x, hx => absurd hx (by simp [ValList.toList])
  | .cons v tl, h, x, hx => by
    simp only [ValList.toList, List.mem_cons] at hx
    simp only [ctxFreeL, Bool.and_eq_true] at h
    rcases hx with rfl | hx
    · exact h.1
    · exact ctxFreeL_mem tl h.2 x hx

/-- Values found in a context-free dictionary are context-free. -/
theorem ctxFreeD_find : ∀ (d : ValDict), ctxFreeD d = true →
    ∀ k v, d.find k = some v → ctxFree v = true
  | .dnil, _, _, _, hfind => by simp [ValDict.find] at hfind
  | .dcons k' v' tl, h, k, v, hfind => by
    simp only [ctxFreeD, Bool.and_eq_true] at h
    simp only [ValDict.find] at hfind
    by_cases hk : k' = k
    · rw [if_pos hk] at hfind
      cases hfind
      exact h.1.2
    · rw [if_neg hk] at hfind
      exact ctxFreeD_find tl h.2 k v hfind

/-- The default-null lookup of a context-free dictionary is context-free. -/
theorem ctxFreeD_findD (d : ValDict) (h : ctxFreeD d = true) (k : String) :
    ctxFree (d.findD k) = true := by
  unfold ValDict.findD
  cases hfind : d.find k with
  | none => rfl
  | some v => exact ctxFreeD_find d h k v hfind

/-- Keys of a context-free dictionary contain no dollar sign. -/
theorem ctxFreeD_keys : ∀ (d : ValDict), ctxFreeD d = true →
    ∀ k ∈ d.keyList, (k ≠ "var" ∧ k.data.contains '$' = false)
  | .dnil, _, k, hk => absurd hk (by simp [ValDict.keyList])
  | .dcons k' v' tl, h, k, hk => by
    simp only [ctxFreeD, Bool.and_eq_true] at h
    simp only [ValDict.keyList, List.mem_cons] at hk
    rcases hk with rfl | hk
    · exact ⟨by simpa using h.1.1.1, by simpa using h.1.1.2⟩
    · exact ctxFreeD_keys tl h.2 k hk

/-- A context-free dictionary has no `var` key. -/
theorem ctxFreeD_no_var (d : ValDict) (h : ctxFreeD d = true) :
    d.hasKey "var" = false := by
  unfold ValDict.hasKey
  by_cases hv : "var" ∈ d.keyList
  · exact absurd rfl (ctxFreeD_keys d h "var" hv).1
  · simpa using hv

/-- Iterating a context-free value yields context-free items. -/
theorem ctxFree_pyIter (v : Val) (h : ctxFree v = true) (l : List Val)
    (hit : pyIter v = .ok l) : ∀ x ∈ l, ctxFree x = true := by
  cases v with
  | vlist xs =>
    simp only [pyIter, Except.ok.injEq] at hit
    subst hit
    exact ctxFreeL_mem xs (by simpa [ctxFree] using h)
  | vstr s =>
    simp only [pyIter, Except.ok.injEq] at hit
    subst hit
    intro x hx
    rcases List.mem_map.mp hx with ⟨c, hc, rfl⟩
    simp only [ctxFree]
    have hcne : c ≠ '$' := by
      simp only [ctxFree] at h
      intro hcd
      subst hcd
      rw [List.contains_eq_any_beq] at h
      simp only [Bool.not_eq_true'] at h
      have hany : s.data.any (fun x => '$' == x) = true :=
        List.any_eq_true.mpr ⟨'$', hc, by simp⟩
      rw [hany] at h
      exact Bool.true_eq_false.mp h
    simp [List.contains_eq_any_beq, Ne.symm hcne]
  | vdict d =>
    simp only [pyIter, Except.ok.injEq] at hit
    subst hit
    intro x hx
    rcases List.mem_map.mp hx with ⟨k, hk, rfl⟩
    have := (ctxFreeD_keys d (by simpa [ctxFree] using h) k hk).2
    simpa [ctxFree] using this
  | vnull => simp [pyIter] at hit
  | vbool b => simp [pyIter] at hit
  | vint n => simp [pyIter] at hit
  | vfloat q => simp [pyIter] at hit

/-- Comparison operands drawn from a context-free value are context-free. -/
theorem ctxFree_wrapCmp (v : Val) (h : ctxFree v = true) :
    ∀ x ∈ wrapCmpOperands v, ctxFree x = true := by
  cases v with
  | vlist xs => exact ctxFreeL_mem xs (by simpa [ctxFree] using h)
  | vdict d =>
    intro x hx
    rcases List.mem_map.mp hx with ⟨k, hk, rfl⟩
    have := (ctxFreeD_keys d (by simpa [ctxFree] using h) k hk).2
    simpa [ctxFree] using this
  | vnull => intro x hx; rcases List.mem_singleton.mp hx with rfl; exact h
  | vbool b => intro x hx; rcases List.mem_singleton.mp hx with rfl; exact h
  | vint n => intro x hx; rcases List.mem_singleton.mp hx with rfl; exact h
  | vfloat q => intro x hx; rcases List.mem_singleton.mp hx with rfl; exact h
  | vstr s => intro x hx; rcases List.mem_singleton.mp hx with rfl; exact h

/-- Negation operands drawn from a context-free value are context-free. -/
theorem ctxFree_wrapNot (v : Val) (h : ctxFree v = true) :
    ∀ x ∈ wrapNotOperands v, ctxFree x = true := by
  cases v with
  | vlist xs => exact ctxFreeL_mem xs (by simpa [ctxFree] using h)
  | vnull => intro x hx; rcases List.mem_singleton.mp hx with rfl; exact h
  | vbool b => intro x hx; rcases List.mem_singleton.mp hx with rfl; exact h
  | vint n => intro x hx; rcases List.mem_singleton.mp hx with rfl; exact h
  | vfloat q => intro x hx; rcases List.mem_singleton.mp hx with rfl; exact h
  | vstr s => intro x hx; rcases List.mem_singleton.mp hx with rfl; exact h
  | vdict d => intro x hx; rcases List.mem_singleton.mp hx with rfl; exact h

/-- A context-free string does not start with a dollar sign. -/
theorem ctxFree_dollarView (s : String) (h : ctxFree (.vstr s) = true) :
    dollarView s.data = none := by
  cases hd : s.data with
  | nil => rfl
  | cons c rest =>
    have hcne : c ≠ '$' := by
      simp only [ctxFree] at h
      intro hcd
      rw [hd, hcd] at h
      simp [List.contains_eq_any_beq] at h
    simp [dollarView, hcne]

/-- Context-free expressions evaluate identically in every context, and so
do their operand resolutions. -/
theorem ctxFree_eval_all_ctx (fuel : Nat) :
    (∀ v, ctxFree v = true → ∀ c1 c2 : Ctx,
      resolve_operand fuel v c1 = resolve_operand fuel v c2) ∧
    (∀ l, (∀ x ∈ l, ctxFree x = true) → ∀ c1 c2 : Ctx,
      resolve_list fuel l c1 = resolve_list fuel l c2) ∧
    (∀ e, ctxFree e = true → ∀ c1 c2 : Ctx,
      eval_expr fuel e c1 = eval_expr fuel e c2) ∧
    (∀ l, (∀ x ∈ l, ctxFree x = true) → ∀ c1 c2 : Ctx,
      eval_all fuel l c1 = eval_all fuel l c2) ∧
    (∀ l, (∀ x ∈ l, ctxFree x = true) → ∀ c1 c2 : Ctx,
      eval_any fuel l c1 = eval_any fuel l c2) := by
  induction fuel with
  | zero => exact ⟨fun _ _ _ _ => rfl, fun _ _ _ _ => rfl, fun _ _ _ _ => rfl,
      fun _ _ _ _ => rfl, fun _ _ _ _ => rfl⟩
  | succ f ih =>
    obtain ⟨ihr, ihrl, ihe, ihall, ihany⟩ := ih
    have heAll : ∀ key (d : ValDict) (c1 c2 : Ctx), ctxFreeD d = true →
        (do
          let items ← pyIter (d.findD key)
          eval_all f items c1) = (do
          let items ← pyIter (d.findD key)
          eval_all f items c2) := by
      intro key d c1 c2 hd
      cases hit : pyIter (d.findD key) with
      | error e => rw [errorBind, errorBind]
      | ok items =>
        rw [okBind, okBind]
        exact ihall items (ctxFree_pyIter _ (ctxFreeD_findD d hd key) items hit) c1 c2
    have heAny : ∀ key (d : ValDict) (c1 c2 : Ctx), ctxFreeD d = true →
        (do
          let items ← pyIter (d.findD key)
          eval_any f items c1) = (do
          let items ← pyIter (d.findD key)
          eval_any f items c2) := by
      intro key d c1 c2 hd
      cases hit : pyIter (d.findD key) with
      | error e => rw [errorBind, errorBind]
      | ok items =>
        rw [okBind, okBind]
        exact ihany items (ctxFree_pyIter _ (ctxFreeD_findD d hd key) items hit) c1 c2
    have hres : ∀ v, ctxFree v = true → ∀ c1 c2 : Ctx,
        resolve_operand (f + 1) v c1 = resolve_operand (f + 1) v c2 := by
      intro v hv c1 c2
      cases v with
      | vnull => rfl
      | vbool b => rfl
      | vint n => rfl
      | vfloat q => rfl
      | vstr s =>
        simp only [resolve_operand]
        rw [ctxFree_dollarView s hv]
      | vlist xs =>
        simp only [resolve_operand]
        rw [ihrl xs.toList (ctxFreeL_mem xs (by simpa [ctxFree] using hv)) c1 c2]
      | vdict d =>
        have hd : ctxFreeD d = true := by simpa [ctxFree] using hv
        cases d with
        | dnil =>
          simp only [resolve_operand]
          rw [ihe (.vdict .dnil) hv c1 c2]
        | dcons k val tl =>
          cases tl with
          | dnil =>
            have hk : ¬k = "var" := by
              simpa using (ctxFreeD_keys _ hd k (by simp [ValDict.keyList])).1
            simp only [resolve_operand]
            rw [if_neg hk, if_neg hk]
            rw [ihe (.vdict (.dcons k val .dnil)) hv c1 c2]
          | dcons k2 v2 tl2 =>
            simp only [resolve_operand]
            rw [ihe (.vdict (.dcons k val (.dcons k2 v2 tl2))) hv c1 c2]
    have hresl : ∀ l, (∀ x ∈ l, ctxFree x = true) → ∀ c1 c2 : Ctx,
        resolve_list (f + 1) l c1 = resolve_list (f + 1) l c2 := by
      intro l hl c1 c2
      cases l with
      | nil => rfl
      | cons v vs =>
        simp only [resolve_list]
        rw [ihr v (hl v (List.mem_cons_self v vs)) c1 c2]
        cases resolve_operand f v c2 with
        | error e => rw [errorBind, errorBind]
        | ok r =>
          rw [okBind, okBind]
          rw [ihrl vs (fun x hx => hl x (List.mem_cons_of_mem v hx)) c1 c2]
    have heval : ∀ e, ctxFree e = true → ∀ c1 c2 : Ctx,
        eval_expr (f + 1) e c1 = eval_expr (f + 1) e c2 := by
      intro e he c1 c2
      cases e with
      | vnull => rfl
      | vbool b => rfl
      | vint n =>
        simp only [eval_expr]
        rw [ihr (.vint n) he c1 c2]
      | vfloat q =>
        simp only [eval_expr]
        rw [ihr (.vfloat q) he c1 c2]
      | vstr s =>
        simp only [eval_expr]
        rw [ihr (.vstr s) he c1 c2]
      | vlist xs =>
        simp only [eval_expr]
        exact ihall xs.toList (ctxFreeL_mem xs (by simpa [ctxFree] using he)) c1 c2
      | vdict d =>
        have hd : ctxFreeD d = true := by simpa [ctxFree] using he
        simp only [eval_expr]
        by_cases hall : d.hasKey "all"
        · rw [if_pos hall, if_pos hall]
          exact heAll "all" d c1 c2 hd
        rw [if_neg hall, if_neg hall]
        by_cases hany : d.hasKey "any"
        · rw [if_pos hany, if_pos hany]
          exact heAny "any" d c1 c2 hd
        rw [if_neg hany, if_neg hany]
        by_cases hand : d.hasKey "and"
        · rw [if_pos hand, if_pos hand]
          exact heAll "and" d c1 c2 hd
        rw [if_neg hand, if_neg hand]
        by_cases hor : d.hasKey "or"
        · rw [if_pos hor, if_pos hor]
          exact heAny "or" d c1 c2 hd
        rw [if_neg hor, if_neg hor]
        by_cases hnot : d.hasKey "not"
        · rw [if_pos hnot, if_pos hnot]
          have hwrap := ctxFree_wrapNot (d.findD "not") (ctxFreeD_findD d hd "not")
          rw [ihany (wrapNotOperands (d.findD "not")) hwrap c1 c2]
        rw [if_neg hnot, if_neg hnot]
        have hvar : (d.hasKey "var" && d.size = 1) = false := by
          rw [ctxFreeD_no_var d hd]
          rfl
        rw [if_neg (by simp [hvar]), if_neg (by simp [hvar])]
        cases d with
        | dnil =>
          show (do
            let r ← resolve_operand f (.vdict .dnil) c1
            pure (pyTruthy r)) = (do
            let r ← resolve_operand f (.vdict .dnil) c2
            pure (pyTruthy r))
          rw [ihr (.vdict .dnil) he c1 c2]
        | dcons op operands tl =>
          cases tl with
          | dcons k2 v2 tl2 =>
            have hd' : ctxFree (Val.vdict (.dcons op operands (.dcons k2 v2 tl2))) = true := he
            show (do
              let r ← resolve_operand f (.vdict (.dcons op operands (.dcons k2 v2 tl2))) c1
              pure (pyTruthy r)) = (do
              let r ← resolve_operand f (.vdict (.dcons op operands (.dcons k2 v2 tl2))) c2
              pure (pyTruthy r))
            rw [ihr _ hd' c1 c2]
          | dnil =>
            have hops : ∀ x ∈ wrapCmpOperands operands, ctxFree x = true := by
              refine ctxFree_wrapCmp operands ?_
              exact ctxFreeD_find _ hd op operands (by simp [ValDict.find])
            show (do
              let resolved ← resolve_list f (wrapCmpOperands operands) c1
              match cmpDispatch (strLower op) resolved with
              | some r => r
              | none => do
                let r ← resolve_operand f (.vdict (.dcons op operands .dnil)) c1
                pure (pyTruthy r)) = (do
              let resolved ← resolve_list f (wrapCmpOperands operands) c2
              match cmpDispatch (strLower op) resolved with
              | some r => r
              | none => do
                let r ← resolve_operand f (.vdict (.dcons op operands .dnil)) c2
                pure (pyTruthy r))
            rw [ihrl (wrapCmpOperands operands) hops c1 c2]
            cases resolve_list f (wrapCmpOperands operands) c2 with
            | error e => rw [errorBind, errorBind]
            | ok resolved =>
              rw [okBind, okBind]
              cases cmpDispatch (strLower op) resolved with
              | some r => rfl
              | none =>
                rw [ihr (.vdict (.dcons op operands .dnil)) he c1 c2]
    refine ⟨hres, hresl, heval, ?_, ?_⟩
    · intro l hl c1 c2
      cases l with
      | nil => rfl
      | cons e es =>
        simp only [eval_all]
        rw [ihe e (hl e (List.mem_cons_self e es)) c1 c2]
        cases eval_expr f e c2 with
        | error err => rw [errorBind, errorBind]
        | ok b =>
          rw [okBind, okBind]
          cases b with
          | true =>
            rw [if_pos rfl, if_pos rfl]
            exact ihall es (fun x hx => hl x (List.mem_cons_of_mem e hx)) c1 c2
          | false => rw [if_neg (by simp), if_neg (by simp)]
    · intro l hl c1 c2
      cases l with
      | nil => rfl
      | cons e es =>
        simp only [eval_any]
        rw [ihe e (hl e (List.mem_cons_self e es)) c1 c2]
        cases eval_expr f e c2 with
        | error err => rw [errorBind, errorBind]
        | ok b =>
          rw [okBind, okBind]
          cases b with
          | true => rw [if_pos rfl, if_pos rfl]
          | false =>
            rw [if_neg (by simp), if_neg (by simp)]
            exact ihany es (fun x hx => hl x (List.mem_cons_of_mem e hx)) c1 c2

/-- The expression of the C4 counterexample:
`{"==": ["$x", 1]}`, which contains no `var` reference. -/
def c4expr : Val :=
  .vdict (.dcons "=="
    (.vlist (.cons (.vstr "$x") (.cons (.vint 1) .nil))) .dnil)

/-- Counterexample to C4 as stated: a var-free expression whose `"$x"`
string operand makes evaluation context-dependent — it yields `true` in a
context binding `x` to `1` and `false` in the empty context. -/
theorem c4_counterexample :
    noVarRef c4expr = true ∧
    eval_expr 5 c4expr [("x", .vint 1)] = .ok true ∧
    eval_expr 5 c4expr [] = .ok false ∧
    (Except.ok true : Except PyErr Bool) ≠ .ok false :=
  ⟨rfl, rfl, rfl, by simp⟩

/-- C4 (amended): evaluation is deterministic (the embedding is a pure
function), and an expression with no `var` reference AND no `$` character
in any string value or dictionary key evaluates identically in every
context. -/
theorem c4_ctx_independent :
    (∀ (fuel : Nat) (e : Val) (c : Ctx), eval_expr fuel e c = eval_expr fuel e c) ∧
    (∀ (fuel : Nat) (e : Val) (c1 c2 : Ctx), ctxFree e = true →
      eval_expr fuel e c1 = eval_expr fuel e c2) :=
  ⟨fun _ _ _ => rfl,
   fun fuel e c1 c2 he => (ctxFree_eval_all_ctx fuel).2.2.1 e he c1 c2⟩

/-- Witness for C4 (amended): a context-free comparison evaluates the same
in a populated and in the empty context. -/
theorem c4_witness :
    eval_expr 5 (.vdict (.dcons "=="
      (.vlist (.cons (.vint 1) (.cons (.vint 1) .nil))) .dnil)) [("x", .vint 7)] =
    eval_expr 5 (.vdict (.dcons "=="
      (.vlist (.cons (.vint 1) (.cons (.vint 1) .nil))) .dnil)) [] :=
  c4_ctx_independent.2 5 _ [("x", .vint 7)] [] (by decide)

/-! ## Stability of the answer validators (claim C9) -/

/-- The head surviving a `dropWhile` does not satisfy the predicate. -/
theorem dropWhile_head_false (p : α → Bool) :
    ∀ (l : List α) (a : α) (as : List α), l.dropWhile p = a :: as → p a = false := by
  intro l
  induction l with
  | nil => intro a as h; simp at h
  | cons x xs ih =>
    intro a as h
    by_cases hx : p x
    · rw [List.dropWhile_cons_of_pos hx] at h
      exact ih a as h
    · rw [List.dropWhile_cons_of_neg hx] at h
      cases h
      simpa using hx

/-- Dropping a prefix twice equals dropping it once. -/
theorem dropWhile_idem (p : α → Bool) (l : List α) :
    (l.dropWhile p).dropWhile p = l.dropWhile p := by
  cases h : l.dropWhile p with
  | nil => simp
  | cons a as =>
    exact List.dropWhile_cons_of_neg (by simp [dropWhile_head_false p l a as h])

/-- Right-trimming is idempotent. -/
theorem rtrim_idem (l : List Char) : rtrimChars (rtrimChars l) = rtrimChars l := by
  unfold rtrimChars
  rw [List.reverse_reverse, dropWhile_idem]

/-- A left-trimmed right-trimmed list is already left-trimmed. -/
theorem ltrim_rtrim_stable (l : List Char) :
    ltrimChars (rtrimChars (ltrimChars l)) = rtrimChars (ltrimChars l) := by
  cases hr : rtrimChars (ltrimChars l) with
  | nil => simp [ltrimChars]
  | cons a as =>
    have hdecomp : ltrimChars l = rtrimChars (ltrimChars l) ++
        ((ltrimChars l).reverse.takeWhile wsChar).reverse := by
      unfold rtrimChars
      calc ltrimChars l = (ltrimChars l).reverse.reverse := (List.reverse_reverse _).symm
        _ = ((ltrimChars l).reverse.takeWhile wsChar ++
              (ltrimChars l).reverse.dropWhile wsChar).reverse := by
              rw [List.takeWhile_append_dropWhile]
        _ = ((ltrimChars l).reverse.dropWhile wsChar).reverse ++
              ((ltrimChars l).reverse.takeWhile wsChar).reverse := by
              rw [List.reverse_append]
    rw [hr] at hdecomp
    have hws : wsChar a = false := by
      apply dropWhile_head_false wsChar l a
        (as ++ ((ltrimChars l).reverse.takeWhile wsChar).reverse)
      calc l.dropWhile wsChar = ltrimChars l := rfl
        _ = (a :: as) ++ ((ltrimChars l).reverse.takeWhile wsChar).reverse := hdecomp
        _ = a :: (as ++ ((ltrimChars l).reverse.takeWhile wsChar).reverse) := by simp
    exact List.dropWhile_cons_of_neg (by simp [hws])

/-- Python `strip` is idempotent. -/
theorem pyStrip_idem (s : String) : pyStrip (pyStrip s) = pyStrip s := by
  unfold pyStrip
  congr 1
  show rtrimChars (ltrimChars (rtrimChars (ltrimChars s.data))) =
    rtrimChars (ltrimChars s.data)
  rw [ltrim_rtrim_stable, rtrim_idem]

/-- Characterization of successful string validation: the result is null,
the empty string, or a nonempty stripped string that strips to itself. -/
theorem validate_string_success (raw v : Val)
    (h : validate_string raw = (v, none)) :
    v = .vnull ∨ v = .vstr "" ∨ ∃ s, v = .vstr s ∧ s ≠ "" ∧ pyStrip s = s := by
  cases raw with
  | vnull =>
    simp only [validate_string] at h
    cases h
    exact Or.inl rfl
  | vstr s =>
    simp only [validate_string] at h
    by_cases hs : s = ""
    · rw [if_pos hs] at h
      subst hs
      cases h
      exact Or.inr (Or.inl rfl)
    · rw [if_neg hs] at h
      cases h
      by_cases hps : pyStrip s = ""
      · exact Or.inr (Or.inl (by rw [hps]))
      · exact Or.inr (Or.inr ⟨pyStrip s, rfl, hps, pyStrip_idem s⟩)
  | vbool b => simp [validate_string] at h
  | vint n => simp [validate_string] at h
  | vfloat q => simp [validate_string] at h
  | vlist xs => simp [validate_string] at h
  | vdict d => simp [validate_string] at h

/-- Re-validating an accepted string answer returns it unchanged. -/
theorem validate_string_stable (raw v : Val)
    (h : validate_string raw = (v, none)) :
    validate_string v = (v, none) := by
  rcases validate_string_success raw v h with rfl | rfl | ⟨s, rfl, hs, hstrip⟩
  · rfl
  · rfl
  · simp [validate_string, hs, hstrip]

/-- Re-validating an accepted email answer returns it unchanged. -/
theorem validate_email_stable (raw v : Val)
    (h : validate_email raw = (v, none)) :
    validate_email v = (v, none) := by
  simp only [validate_email] at h ⊢
  cases hstr : validate_string raw with
  | mk v0 e0 =>
    rw [hstr] at h
    cases e0 with
    | some e => simp at h
    | none =>
      rcases validate_string_success raw v0 hstr with rfl | rfl | ⟨s, rfl, hs, hstrip⟩
      · simp only [] at h
        cases h
        rfl
      · simp only [if_true] at h
        cases h
        rfl
      · simp only [] at h
        rw [if_neg hs] at h
        by_cases hem : emailOk s
        · rw [if_pos hem] at h
          cases h
          have hre : validate_string (.vstr s) = (.vstr s, none) := by
            simp [validate_string, hs, hstrip]
          rw [hre]
          simp only []
          rw [if_neg hs, if_pos hem]
        · rw [if_neg hem] at h
          simp at h

/-- Re-validating an accepted phone answer returns it unchanged. -/
theorem validate_phone_stable (raw v : Val)
    (h : validate_phone raw = (v, none)) :
    validate_phone v = (v, none) := by
  simp only [validate_phone] at h ⊢
  cases hstr : validate_string raw with
  | mk v0 e0 =>
    rw [hstr] at h
    cases e0 with
    | some e => simp at h
    | none =>
      rcases validate_string_success raw v0 hstr with rfl | rfl | ⟨s, rfl, hs, hstrip⟩
      · simp only [] at h
        cases h
        rfl
      · simp only [if_true] at h
        cases h
        rfl
      · simp only [] at h
        rw [if_neg hs] at h
        by_cases hph : phoneOk s
        · rw [if_pos hph] at h
          cases h
          have hre : validate_string (.vstr s) = (.vstr s, none) := by
            simp [validate_string, hs, hstrip]
          rw [hre]
          simp only []
          rw [if_neg hs, if_pos hph]
        · rw [if_neg hph] at h
          simp at h

/-- Re-validating an accepted boolean answer returns it unchanged. -/
theorem validate_boolean_stable (raw v : Val)
    (h : validate_boolean raw = (v, none)) :
    validate_boolean v = (v, none) := by
  cases raw with
  | vnull => cases h; rfl
  | vbool b => cases h; rfl
  | vstr s =>
    simp only [validate_boolean] at h
    by_cases hs : s = ""
    · rw [if_pos hs] at h
      cases h
      rfl
    · rw [if_neg hs] at h
      by_cases h1 : strLower (pyStrip s) = "true" ∨ strLower (pyStrip s) = "1" ∨
          strLower (pyStrip s) = "yes" ∨ strLower (pyStrip s) = "on"
      · rw [if_pos h1] at h
        cases h
        rfl
      · rw [if_neg h1] at h
        by_cases h2 : strLower (pyStrip s) = "false" ∨ strLower (pyStrip s) = "0" ∨
            strLower (pyStrip s) = "no" ∨ strLower (pyStrip s) = "off"
        · rw [if_pos h2] at h
          cases h
          rfl
        · rw [if_neg h2] at h
          simp at h
  | vint n => simp [validate_boolean] at h
  | vfloat q => simp [validate_boolean] at h
  | vlist xs => simp [validate_boolean] at h
  | vdict d => simp [validate_boolean] at h

/-- Re-validating an accepted select answer returns it unchanged. -/
theorem validate_select_stable (q : Question) (raw v : Val)
    (h : validate_select q raw = (v, none)) :
    validate_select q v = (v, none) := by
  cases raw with
  | vnull => cases h; rfl
  | vstr s =>
    simp only [validate_select] at h
    by_cases hs : s = ""
    · rw [if_pos hs] at h
      cases h
      simp [validate_select, hs]
    · rw [if_neg hs] at h
      by_cases hmem : q.options.contains s
      · rw [if_pos hmem] at h
        cases h
        have hmem' : s ∈ q.options := by simpa using hmem
        simp [validate_select, hs, hmem']
      · rw [if_neg hmem] at h
        simp at h
  | vbool b => simp [validate_select] at h
  | vint n => simp [validate_select] at h
  | vfloat q' => simp [validate_select] at h
  | vlist xs => simp [validate_select] at h
  | vdict d => simp [validate_select] at h

/-- Re-validating an accepted number answer returns it unchanged. -/
theorem validate_number_stable (raw v : Val)
    (h : validate_number raw = (v, none)) :
    validate_number v = (v, none) := by
  cases raw with
  | vnull => cases h; rfl
  | vint n => cases h; rfl
  | vfloat q => cases h; rfl
  | vbool b => cases h; rfl
  | vstr s =>
    simp only [validate_number] at h
    by_cases hs : s = ""
    · rw [if_pos hs] at h
      cases h
      simp [validate_number, hs]
    · rw [if_neg hs] at h
      cases hpf : parseFloat s with
      | some qv => rw [hpf] at h; cases h; rfl
      | none => rw [hpf] at h; simp at h
  | vlist xs => simp [validate_number] at h
  | vdict d => simp [validate_number] at h

/-- The character of a small digit is a digit character. -/
theorem isDigitC_digitChar (n : Nat) (h : n < 10) : isDigitC (digitChar n) = true := by
  interval_cases n <;> decide

/-- Digit value and digit character are inverse on small digits. -/
theorem digitVal_digitChar (n : Nat) (h : n < 10) : digitVal (digitChar n) = n := by
  interval_cases n <;> decide

/-- A small digit never renders as the dash separator. -/
theorem digitChar_ne_dash (n : Nat) (h : n < 10) : digitChar n ≠ '-' := by
  interval_cases n <;> decide

/-- Digit characters have value at most nine. -/
theorem digitVal_le_of_isDigitC (c : Char) (h : isDigitC c = true) : digitVal c ≤ 9 := by
  simp only [isDigitC, decide_eq_true_eq] at h
  unfold digitVal
  omega

/-- A parsed four-digit group is below ten thousand. -/
theorem fourDigitVal_lt (l : List Char) (n : Nat) (h : fourDigitVal l = some n) :
    n < 10000 := by
  match l with
  | [] => simp [fourDigitVal] at h
  | [a] => simp [fourDigitVal] at h
  | [a, b] => simp [fourDigitVal] at h
  | [a, b, c] => simp [fourDigitVal] at h
  | [a, b, c, d] =>
    simp only [fourDigitVal] at h
    by_cases hd : isDigitC a && isDigitC b && isDigitC c && isDigitC d
    · rw [if_pos hd] at h
      cases h
      simp only [Bool.and_eq_true] at hd
      have ha := digitVal_le_of_isDigitC a hd.1.1.1
      have hb := digitVal_le_of_isDigitC b hd.1.1.2
      have hc := digitVal_le_of_isDigitC c hd.1.2
      have hdd := digitVal_le_of_isDigitC d hd.2
      omega
    · rw [if_neg hd] at h
      simp at h
  | _ :: _ :: _ :: _ :: _ :: _ => simp [fourDigitVal] at h

/-- Splitting a separator-free list yields a single group. -/
theorem splitOnC_not_mem (sep : Char) :
    ∀ l : List Char, sep ∉ l → splitOnC sep l = [l] := by
  intro l
  induction l with
  | nil => intro _; rfl
  | cons c cs ih =>
    intro h
    have hc : ¬c = sep := fun hh => h (hh ▸ List.mem_cons_self c cs)
    simp only [splitOnC]
    rw [if_neg hc, ih fun hh => h (List.mem_cons_of_mem c hh)]

/-- Splitting after a separator-free first group peels it off. -/
theorem splitOnC_append (sep : Char) :
    ∀ (a l : List Char), sep ∉ a →
      splitOnC sep (a ++ sep :: l) = a :: splitOnC sep l := by
  intro a
  induction a with
  | nil =>
    intro l _
    simp [splitOnC]
  | cons c cs ih =>
    intro l h
    have hc : ¬c = sep := fun hh => h (hh ▸ List.mem_cons_self c cs)
    simp only [List.cons_append, splitOnC, List.append_eq]
    rw [if_neg hc, ih l fun hh => h (List.mem_cons_of_mem c hh)]

/-- The dash is not among the characters of a four-digit render. -/
theorem dash_not_mem_pad4 (n : Nat) (h : n < 10000) : '-' ∉ pad4 n := by
  simp only [pad4, List.mem_cons, List.not_mem_nil, or_false]
  push_neg
  refine ⟨?_, ?_, ?_, ?_⟩ <;> intro hcontra
  · exact digitChar_ne_dash (n / 1000) (by omega) hcontra.symm
  · exact digitChar_ne_dash (n / 100 % 10) (by omega) hcontra.symm
  · exact digitChar_ne_dash (n / 10 % 10) (by omega) hcontra.symm
  · exact digitChar_ne_dash (n % 10) (by omega) hcontra.symm

/-- The dash is not among the characters of a two-digit render. -/
theorem dash_not_mem_pad2 (n : Nat) (h : n < 100) : '-' ∉ pad2 n := by
  simp only [pad2, List.mem_cons, List.not_mem_nil, or_false]
  push_neg
  refine ⟨?_, ?_⟩ <;> intro hcontra
  · exact digitChar_ne_dash (n / 10) (by omega) hcontra.symm
  · exact digitChar_ne_dash (n % 10) (by omega) hcontra.symm

/-- Parsing back a four-digit render recovers the number. -/
theorem fourDigitVal_pad4 (n : Nat) (h : n < 10000) :
    fourDigitVal (pad4 n) = some n := by
  simp only [pad4, fourDigitVal]
  rw [if_pos (by
    rw [isDigitC_digitChar (n / 1000) (by omega),
        isDigitC_digitChar (n / 100 % 10) (by omega),
        isDigitC_digitChar (n / 10 % 10) (by omega),
        isDigitC_digitChar (n % 10) (by omega)]
    rfl)]
  rw [digitVal_digitChar (n / 1000) (by omega),
      digitVal_digitChar (n / 100 % 10) (by omega),
      digitVal_digitChar (n / 10 % 10) (by omega),
      digitVal_digitChar (n % 10) (by omega)]
  congr 1
  omega

/-- Parsing back a two-digit render recovers the number. -/
theorem twoDigitVal_pad2 (n : Nat) (h : n < 100) :
    twoDigitVal (pad2 n) = some n := by
  simp only [pad2, twoDigitVal]
  rw [if_pos (by
    rw [isDigitC_digitChar (n / 10) (by omega), isDigitC_digitChar (n % 10) (by omega)]
    rfl)]
  rw [digitVal_digitChar (n / 10) (by omega), digitVal_digitChar (n % 10) (by omega)]
  congr 1
  omega

/-- Every month has at most 31 days. -/
theorem daysInMonth_le (y m : Nat) : daysInMonth y m ≤ 31 := by
  unfold daysInMonth
  split
  · split <;> omega
  · split <;> omega

/-- A successfully parsed date satisfies the calendar bounds enforced by
`strptime` and the `datetime` constructor. -/
theorem parse_date_valid (s : String) (d : PyDate) (h : parse_date s = some d) :
    1 ≤ d.year ∧ d.year < 10000 ∧ 1 ≤ d.month ∧ d.month ≤ 12 ∧
      1 ≤ d.day ∧ d.day ≤ daysInMonth d.year d.month := by
  unfold parse_date at h
  cases hsplit : splitOnC '-' s.data with
  | nil => rw [hsplit] at h; simp at h
  | cons g1 gs =>
    rw [hsplit] at h
    match gs with
    | [] => simp at h
    | [g2] => simp at h
    | [g2, g3] =>
      simp only [] at h
      cases hy : fourDigitVal g1 with
      | none => rw [hy] at h; simp at h
      | some y =>
        rw [hy] at h
        cases hm : twoDigitVal g2 with
        | none => rw [hm] at h; simp at h
        | some m =>
          rw [hm] at h
          cases hd : twoDigitVal g3 with
          | none => rw [hd] at h; simp at h
          | some dd =>
            rw [hd] at h
            simp only [] at h
            by_cases hcond : 1 ≤ y ∧ 1 ≤ m ∧ m ≤ 12 ∧ 1 ≤ dd ∧ dd ≤ daysInMonth y m
            · rw [if_pos hcond] at h
              cases h
              exact ⟨hcond.1, fourDigitVal_lt g1 y hy, hcond.2.1, hcond.2.2.1,
                hcond.2.2.2.1, hcond.2.2.2.2⟩
            · rw [if_neg hcond] at h
              simp at h
    | g2 :: g3 :: g4 :: gs' => simp at h

/-- Parsing the ISO rendering of a valid date recovers the date. -/
theorem parse_date_isoformat (d : PyDate)
    (h1 : 1 ≤ d.year) (h2 : d.year < 10000) (h3 : 1 ≤ d.month) (h4 : d.month ≤ 12)
    (h5 : 1 ≤ d.day) (h6 : d.day ≤ daysInMonth d.year d.month) :
    parse_date (isoformat d) = some d := by
  unfold parse_date isoformat
  show (match splitOnC '-' (pad4 d.year ++ '-' :: (pad2 d.month ++ '-' :: pad2 d.day)) with
    | [ys, ms, ds] => _
    | _ => none) = some d
  rw [splitOnC_append '-' (pad4 d.year) _ (dash_not_mem_pad4 d.year h2),
      splitOnC_append '-' (pad2 d.month) _ (dash_not_mem_pad2 d.month (by omega)),
      splitOnC_not_mem '-' (pad2 d.day)
        (dash_not_mem_pad2 d.day (by have := daysInMonth_le d.year d.month; omega))]
  simp only []
  rw [fourDigitVal_pad4 d.year h2, twoDigitVal_pad2 d.month (by omega),
      twoDigitVal_pad2 d.day (by have := daysInMonth_le d.year d.month; omega)]
  simp only []
  rw [if_pos ⟨h1, h3, h4, h5, h6⟩]

/-- The ISO rendering of a date is never the empty string. -/
theorem isoformat_ne_empty (d : PyDate) : isoformat d ≠ "" := by
  simp [isoformat, pad4, String.ext_iff]

/-- Re-validating an accepted date answer returns it unchanged. -/
theorem validate_date_stable (raw v : Val) (dnf : Bool) (today : PyDate)
    (h : validate_date raw dnf today = (v, none)) :
    validate_date v dnf today = (v, none) := by
  cases raw with
  | vnull => cases h; rfl
  | vstr s =>
    simp only [validate_date] at h
    by_cases hs : s = ""
    · rw [if_pos hs] at h
      cases h
      simp [validate_date, hs]
    · rw [if_neg hs] at h
      cases hp : parse_date s with
      | none => rw [hp] at h; simp at h
      | some d =>
        rw [hp] at h
        simp only [] at h
        by_cases hfut : dnf && pyDateLt today d
        · rw [if_pos hfut] at h
          simp at h
        · rw [if_neg hfut] at h
          cases h
          obtain ⟨h1, h2, h3, h4, h5, h6⟩ := parse_date_valid s d hp
          simp only [validate_date]
          rw [if_neg (isoformat_ne_empty d), parse_date_isoformat d h1 h2 h3 h4 h5 h6]
          simp only []
          rw [if_neg hfut]
  | vbool b => simp [validate_date] at h
  | vint n => simp [validate_date] at h
  | vfloat q => simp [validate_date] at h
  | vlist xs => simp [validate_date] at h
  | vdict dd => simp [validate_date] at h

/-- Round trip between ordinary and embedded lists. -/
theorem toList_ofList : ∀ l : List Val, (ValList.ofList l).toList = l
  | [] => rfl
  | v :: vs => by simp only [ValList.ofList, ValList.toList, toList_ofList vs]

/-- A successful multiselect cleaning yields a duplicate-free list of
allowed option strings. -/
theorem msLoop_success (allowed : List String) :
    ∀ (items : List Val) (cleaned : List String) (v : Val),
      msLoop allowed items cleaned = (v, none) →
      cleaned.Nodup → (∀ x ∈ cleaned, x ∈ allowed) →
      ∃ out : List String, v = .vlist (ValList.ofList (out.map .vstr)) ∧ out.Nodup ∧
        (∀ x ∈ out, x ∈ allowed) := by
  intro items
  induction items with
  | nil =>
    intro cleaned v h hnd hsub
    simp only [msLoop] at h
    cases h
    exact ⟨cleaned, rfl, hnd, hsub⟩
  | cons item rest ih =>
    intro cleaned v h hnd hsub
    simp only [msLoop] at h
    cases item with
    | vstr s =>
      simp only [] at h
      by_cases hca : allowed.contains s
      · rw [if_pos hca] at h
        by_cases hcc : cleaned.contains s
        · rw [if_pos hcc] at h
          exact ih cleaned v h hnd hsub
        · rw [if_neg hcc] at h
          have hs_not : s ∉ cleaned := by simpa using hcc
          have hs_all : s ∈ allowed := by simpa using hca
          refine ih (cleaned ++ [s]) v h ?_ ?_
          · simpa [List.nodup_append] using ⟨hnd, hs_not⟩
          · intro x hx
            rcases List.mem_append.mp hx with hx | hx
            · exact hsub x hx
            · rcases List.mem_singleton.mp hx with rfl
              exact hs_all
      · rw [if_neg hca] at h
        simp at h
    | vnull => simp at h
    | vbool b => simp at h
    | vint n => simp at h
    | vfloat qq => simp at h
    | vlist xs => simp at h
    | vdict d => simp at h

/-- Replaying the cleaning loop on already-clean output is the identity. -/
theorem msLoop_replay (allowed : List String) :
    ∀ (out c : List String), (c ++ out).Nodup → (∀ x ∈ out, x ∈ allowed) →
      msLoop allowed (out.map .vstr) c =
        (.vlist (ValList.ofList ((c ++ out).map .vstr)), none) := by
  intro out
  induction out with
  | nil =>
    intro c _ _
    simp [msLoop]
  | cons s rest ih =>
    intro c hnd hsub
    have hs_all : s ∈ allowed := hsub s (List.mem_cons_self s rest)
    have hs_notc : s ∉ c := by
      intro hmem
      exact (List.nodup_append.mp hnd).2.2 hmem (List.mem_cons_self s rest)
    simp only [List.map_cons, msLoop]
    rw [if_pos (by simpa using hs_all), if_neg (by simpa using hs_notc)]
    have hnd' : ((c ++ [s]) ++ rest).Nodup := by
      rw [← List.append_cons]
      exact hnd
    rw [ih (c ++ [s]) hnd' fun x hx => hsub x (List.mem_cons_of_mem s hx)]
    rw [← List.append_cons]

/-- Re-validating an accepted multiselect answer returns it unchanged. -/
theorem validate_multiselect_stable (q : Question) (raw v : Val)
    (h : validate_multiselect q raw = (v, none)) :
    validate_multiselect q v = (v, none) := by
  have hsuccess : v = .vlist .nil ∨
      ∃ out : List String, v = .vlist (ValList.ofList (out.map .vstr)) ∧ out.Nodup ∧
        (∀ x ∈ out, x ∈ q.options) := by
    cases raw with
    | vnull => cases h; exact Or.inl rfl
    | vlist xs =>
      cases xs with
      | nil => cases h; exact Or.inl rfl
      | cons a tl =>
        simp only [validate_multiselect] at h
        exact Or.inr (msLoop_success q.options _ [] v h (by simp) (by simp))
    | vbool b => simp [validate_multiselect] at h
    | vint n => simp [validate_multiselect] at h
    | vfloat qq => simp [validate_multiselect] at h
    | vstr s => simp [validate_multiselect] at h
    | vdict d => simp [validate_multiselect] at h
  rcases hsuccess with rfl | ⟨out, rfl, hnd, hsub⟩
  · rfl
  · cases out with
    | nil => rfl
    | cons s rest =>
      show validate_multiselect q
          (.vlist (.cons (.vstr s) (ValList.ofList (rest.map .vstr)))) =
        (.vlist (.cons (.vstr s) (ValList.ofList (rest.map .vstr))), none)
      simp only [validate_multiselect]
      rw [show (ValList.cons (Val.vstr s) (ValList.ofList (rest.map Val.vstr))).toList =
        (s :: rest).map Val.vstr from by simp [ValList.toList, toList_ofList]]
      rw [msLoop_replay q.options (s :: rest) [] (by simpa using hnd) hsub]
      rfl

/-- C9: validation is idempotent on its own output — any normalized value
produced without error re-validates without error to the same value, for
every question type. -/
theorem c9_validate_idempotent (q : Question) (raw : Val) (today : PyDate) (v : Val)
    (h : validate_answer_value q raw today = (v, none)) :
    validate_answer_value q v today = (v, none) := by
  cases hq : q.qtype <;> simp only [validate_answer_value, hq] at h ⊢
  · exact validate_string_stable raw v h
  · exact validate_string_stable raw v h
  · exact validate_email_stable raw v h
  · exact validate_phone_stable raw v h
  · exact validate_date_stable raw v q.dateNotFuture today h
  · exact validate_boolean_stable raw v h
  · exact validate_boolean_stable raw v h
  · exact validate_select_stable q raw v h
  · exact validate_select_stable q raw v h
  · exact validate_multiselect_stable q raw v h
  · exact validate_multiselect_stable q raw v h
  · exact validate_number_stable raw v h

/-- Witness for C9: a padded text answer normalizes to its stripped form,
and re-validating that output returns it unchanged. -/
theorem c9_witness :
    validate_answer_value qTextFixture (.vstr " hi ") today0 = (.vstr "hi", none) ∧
    validate_answer_value qTextFixture (.vstr "hi") today0 = (.vstr "hi", none) :=
  ⟨rfl, c9_validate_idempotent qTextFixture (.vstr " hi ") today0 (.vstr "hi") rfl⟩

end ProDvizhenie
